import Mathlib

/-!
Shallow embedding of the Subscription_bot entitlement core
(src/database/models.py, src/services/subscription.py, src/handlers/admin.py,
src/handlers/user.py) and proofs of the specification claims about it.

Timestamps are modelled as integers counting seconds.  SQLite's
`CAST((julianday('now') - julianday(join_date)) AS INTEGER)` computes the
fractional day difference and truncates toward zero, which on second
timestamps is truncating division by 86400 (`Int.tdiv`).

The persistent store (SQLite tables `users`, `channels`, `user_channels`) is
modelled as lists of rows; `user_id` is a primary key and `user_channels`
carries `UNIQUE(user_id, channel_id)`, which appear below as `Nodup`
hypotheses/invariants.  The external Telegram platform is modelled as an
oracle (`Platform`) plus a log of the platform calls an operation performs;
exceptions raised by platform calls are modelled by oracle fields that mark a
call as raising.  The append-only `action_logs` audit table is observational
only (never read by the entitlement logic) and is not modelled.
-/

namespace SubBot

/-- Whole elapsed days between two second-timestamps, truncated toward zero,
as SQLite's `CAST((julianday(b) - julianday(a)) AS INTEGER)`. -/
def wholeDaysBetween (a b : Int) : Int := Int.tdiv (b - a) 86400

/-- Row of the `users` table (src/database/db.py lines 33-44). -/
structure User where
  userId : Int
  username : Option String
  firstName : Option String
  joinDate : Int
  isActive : Bool
  lastCheck : Option Int
  notificationsEnabled : Bool
  bonusDays : Int
  isBanned : Bool
  banReason : Option String
deriving Repr, DecidableEq

/-- Row of the `channels` table (src/database/db.py lines 46-53). -/
structure Channel where
  channelId : Int
  name : String
  daysRequired : Int
  isMain : Bool
deriving Repr, DecidableEq

/-- Row of the `user_channels` table — a Grant (src/database/db.py lines 55-64).
The table has `UNIQUE(user_id, channel_id)`. -/
structure Grant where
  userId : Int
  channelId : Int
  grantedAt : Int
  messageId : Option Nat
deriving Repr, DecidableEq

/-- An entry of `CHANNELS_CONFIG` (src/config.py): the channel catalog the
sweep iterates.  Entries with `id = 0` are unconfigured and skipped. -/
structure ChannelCfg where
  id : Int
  name : String
  daysRequired : Int
deriving Repr, DecidableEq

/-- The persistent store: the tables the entitlement logic reads and writes. -/
structure Store where
  users : List User
  channels : List Channel
  grants : List Grant
deriving Repr, DecidableEq

namespace UserModel

/-- UserModel.get: `SELECT * FROM users WHERE user_id = ?` (first row). -/
def get (s : Store) (uid : Int) : Option User :=
  s.users.find? (fun u => u.userId == uid)

/-- UserModel.create: `INSERT INTO users (user_id, username, first_name,
join_date, is_active) VALUES (?, ?, ?, ?, 1)`; the PRIMARY KEY makes the
insert fail (caught, returning False) if the row exists. -/
def create (s : Store) (uid : Int) (username firstName : Option String)
    (now : Int) : Store :=
  if s.users.any (fun u => u.userId == uid) then s
  else
    { s with users := s.users ++
        [{ userId := uid, username := username, firstName := firstName,
           joinDate := now, isActive := true, lastCheck := none,
           notificationsEnabled := true, bonusDays := 0, isBanned := false,
           banReason := none }] }

/-- UserModel.update_active: `UPDATE users SET is_active = ?, last_check = ?
WHERE user_id = ?`. -/
def update_active (s : Store) (uid : Int) (active : Bool) (now : Int) : Store :=
  { s with users := s.users.map (fun u =>
      if u.userId == uid then { u with isActive := active, lastCheck := some now }
      else u) }

/-- UserModel.get_active_users: `SELECT * FROM users WHERE is_active = 1`. -/
def get_active_users (s : Store) : List User :=
  s.users.filter (fun u => u.isActive)

end UserModel

namespace ChannelModel

/-- ChannelModel.get: `SELECT * FROM channels WHERE channel_id = ?`. -/
def get (s : Store) (cid : Int) : Option Channel :=
  s.channels.find? (fun c => c.channelId == cid)

end ChannelModel

namespace UserChannelModel

/-- UserChannelModel.has_access: `SELECT 1 FROM user_channels WHERE
user_id = ? AND channel_id = ?` is nonempty. -/
def has_access (s : Store) (uid cid : Int) : Bool :=
  s.grants.any (fun g => g.userId == uid && g.channelId == cid)

/-- UserChannelModel.grant_access: `INSERT OR IGNORE INTO user_channels
(user_id, channel_id, granted_at, message_id) VALUES (?, ?, ?, ?)`; the
UNIQUE(user_id, channel_id) constraint makes the insert a no-op when a row
with that key exists. -/
def grant_access (s : Store) (uid cid : Int) (now : Int)
    (messageId : Option Nat) : Store :=
  if has_access s uid cid then s
  else
    { s with grants := s.grants ++
        [{ userId := uid, channelId := cid, grantedAt := now,
           messageId := messageId }] }

/-- UserChannelModel.update_message_id: `UPDATE user_channels SET
message_id = ? WHERE user_id = ? AND channel_id = ?`. -/
def update_message_id (s : Store) (uid cid : Int) (mid : Nat) : Store :=
  { s with grants := s.grants.map (fun g =>
      if g.userId == uid && g.channelId == cid then { g with messageId := some mid }
      else g) }

/-- UserChannelModel.get_user_channels: `SELECT uc.*, c.name, c.days_required
FROM user_channels uc JOIN channels c ON uc.channel_id = c.channel_id WHERE
uc.user_id = ?` — grant rows of the user joined with their channel row. -/
def get_user_channels (s : Store) (uid : Int) : List (Grant × Channel) :=
  (s.grants.filter (fun g => g.userId == uid)).filterMap (fun g =>
    (s.channels.find? (fun c => c.channelId == g.channelId)).map (fun c => (g, c)))

/-- First half of UserChannelModel.revoke_all: `SELECT uc.channel_id,
uc.message_id FROM user_channels uc WHERE uc.user_id = ?`. -/
def revoke_all_infos (s : Store) (uid : Int) : List Grant :=
  s.grants.filter (fun g => g.userId == uid)

/-- Second half of UserChannelModel.revoke_all: `DELETE FROM user_channels
WHERE user_id = ?`. -/
def delete_user_grants (s : Store) (uid : Int) : Store :=
  { s with grants := s.grants.filter (fun g => !(g.userId == uid)) }

/-- UserChannelModel.revoke_access: `DELETE FROM user_channels WHERE
user_id = ? AND channel_id = ?`. -/
def revoke_access (s : Store) (uid cid : Int) : Store :=
  { s with grants := s.grants.filter (fun g => !(g.userId == uid && g.channelId == cid)) }

/-- UserChannelModel.get_users_with_channel_access: `SELECT uc.user_id,
uc.message_id, u.username, u.first_name FROM user_channels uc JOIN users u ON
uc.user_id = u.user_id WHERE uc.channel_id = ?` — (user_id, message_id) of
every grant row of the channel whose user row exists. -/
def get_users_with_channel_access (s : Store) (cid : Int) :
    List (Int × Option Nat) :=
  (s.grants.filter (fun g => g.channelId == cid)).filterMap (fun g =>
    (UserModel.get s g.userId).map (fun _ => (g.userId, g.messageId)))

end UserChannelModel

namespace UserModelExtended

/-- UserModelExtended.get_effective_days: `SELECT CAST((julianday('now') -
julianday(join_date)) AS INTEGER) + COALESCE(bonus_days, 0) FROM users WHERE
user_id = ?`, returning 0 when there is no row. -/
def get_effective_days (s : Store) (uid : Int) (now : Int) : Int :=
  match UserModel.get s uid with
  | none => 0
  | some u => wholeDaysBetween u.joinDate now + u.bonusDays

/-- UserModelExtended.reactivate: `UPDATE users SET join_date = ?,
is_active = 1, bonus_days = 0 WHERE user_id = ?`.  (This method is defined in
src/database/models.py lines 569-575 but has no caller in the repository.) -/
def reactivate (s : Store) (uid : Int) (now : Int) : Store :=
  { s with users := s.users.map (fun u =>
      if u.userId == uid then { u with joinDate := now, isActive := true, bonusDays := 0 }
      else u) }

/-- UserModelExtended.get_users_by_days_range: active users whose
`CAST((julianday('now') - julianday(join_date)) AS INTEGER)` lies between the
bounds (bonus days NOT included). -/
def get_users_by_days_range (s : Store) (now minDays maxDays : Int) : List User :=
  s.users.filter (fun u => u.isActive &&
    minDays ≤ wholeDaysBetween u.joinDate now &&
    wholeDaysBetween u.joinDate now ≤ maxDays)

/-- Row shape returned by the milestone query: the user columns plus the
computed `days_subscribed` and the joined channel columns. -/
structure MilestoneRow where
  userId : Int
  daysSubscribed : Int
  channelId : Int
  channelName : String
  daysRequired : Int
deriving Repr, DecidableEq

/-- UserModelExtended.get_users_approaching_milestone: CROSS JOIN of users and
channels keeping active, notification-enabled users and non-main channels with
`1 ≤ days_required - days_subscribed ≤ days_before` and no existing grant,
where `days_subscribed = CAST((julianday('now') - julianday(join_date)) AS
INTEGER)` (bonus days NOT included). -/
def get_users_approaching_milestone (s : Store) (now : Int) (daysBefore : Int) :
    List MilestoneRow :=
  (s.users.map (fun u =>
    (s.channels.filter (fun c =>
        u.isActive && !c.isMain && u.notificationsEnabled &&
        1 ≤ c.daysRequired - wholeDaysBetween u.joinDate now &&
        c.daysRequired - wholeDaysBetween u.joinDate now ≤ daysBefore &&
        !(UserChannelModel.has_access s u.userId c.channelId))).map (fun c =>
      { userId := u.userId,
        daysSubscribed := wholeDaysBetween u.joinDate now,
        channelId := c.channelId, channelName := c.name,
        daysRequired := c.daysRequired }))).flatten

end UserModelExtended

/-- One call made against the external Telegram platform. -/
inductive PCall where
  | getChatMember (chat user : Int)
  | createInvite (chat user : Int)
  | banMember (chat user : Int)
  | unbanMember (chat user : Int)
  | sendMessage (user : Int)
  | deleteMessage (user : Int) (mid : Nat)
deriving Repr, DecidableEq

/-- Oracle for the external platform: outcomes of the fallible calls, plus
which calls raise an exception that is not caught locally (and therefore
reaches the per-user handler of the sweep). -/
structure Platform where
  mainMember : Int → Bool
  memberFault : Int → Bool
  inviteOk : Int → Int → Bool
  sendOk : Int → Bool
  effFault : Int → Int → Bool

/-- Mutable world of an operation: the store plus the log of platform calls
made so far and a counter supplying fresh Telegram message ids. -/
structure World where
  store : Store
  calls : List PCall
  msgCtr : Nat

/-- Record that a platform call was made. -/
def logCall (c : PCall) (w : World) : World :=
  { w with calls := w.calls ++ [c] }

namespace SubscriptionService

open UserChannelModel UserModelExtended

/-- Status component of SubscriptionService.register_user's result dict. -/
inductive RegStatus where
  | new
  | existing
  | reactivated
deriving Repr, DecidableEq

/-- SubscriptionService.register_user (src/services/subscription.py lines
27-49): an existing inactive user is "reactivated" via
`UserModel.update_active(user_id, True)`; an unknown user is created. -/
def register_user (s : Store) (now : Int) (uid : Int)
    (username firstName : Option String) : RegStatus × Store :=
  match UserModel.get s uid with
  | some u =>
    if !u.isActive then (RegStatus.reactivated, UserModel.update_active s uid true now)
    else (RegStatus.existing, s)
  | none => (RegStatus.new, UserModel.create s uid username firstName now)

/-- SubscriptionService.grant_channel_access (src/services/subscription.py
lines 51-77): if a grant row already exists return None with no platform
call; otherwise create a single-use invite link (a platform call that can
fail, in which case nothing is persisted) and then insert the grant row with
a NULL message_id. -/
def grant_channel_access (env : Platform) (now : Int) (uid cid : Int)
    (w : World) : Option String × World :=
  if has_access w.store uid cid then (none, w)
  else
    let w1 := logCall (PCall.createInvite cid uid) w
    if env.inviteOk cid uid then
      (some ("invite_user_" ++ toString uid),
       { w1 with store := grant_access w1.store uid cid now none })
    else (none, w1)

/-- Body of the per-channel loop inside SubscriptionService.revoke_user_access:
collect the invite-message id and best-effort ban+unban the user out of the
channel. -/
def revoke_channel_step (uid : Int) (acc : List Nat × World) (g : Grant) :
    List Nat × World :=
  let mids := match g.messageId with
    | some m => acc.1 ++ [m]
    | none => acc.1
  let w' := logCall (PCall.unbanMember g.channelId uid)
    (logCall (PCall.banMember g.channelId uid) acc.2)
  (mids, w')

/-- SubscriptionService.revoke_user_access (src/services/subscription.py
lines 79-105): fetch and delete all grant rows of the user, best-effort
ban+unban the user out of each of those channels, mark the user inactive,
and return the collected invite-message ids. -/
def revoke_user_access (_env : Platform) (now : Int) (uid : Int) (w : World) :
    List Nat × World :=
  let infos := revoke_all_infos w.store uid
  let w1 : World := { w with store := delete_user_grants w.store uid }
  let folded := infos.foldl (revoke_channel_step uid) ([], w1)
  (folded.1, { folded.2 with store := UserModel.update_active folded.2.store uid false now })

/-- SubscriptionService.revoke_unqualified_channel_access
(src/services/subscription.py lines 107-143): look up the grant's message_id
via get_user_channels, delete the grant row, best-effort ban+unban the user
out of the channel, best-effort notify the user, and return the message_id. -/
def revoke_unqualified_channel_access (_env : Platform) (uid cid : Int)
    (w : World) : Option Nat × World :=
  let mid := ((get_user_channels w.store uid).find?
    (fun p => p.1.channelId == cid)).bind (fun p => p.1.messageId)
  let w1 : World := { w with store := revoke_access w.store uid cid }
  let w2 := logCall (PCall.sendMessage uid)
    (logCall (PCall.unbanMember cid uid) (logCall (PCall.banMember cid uid) w1))
  (mid, w2)

/-- Statistics dict returned by check_and_revoke_unqualified_access. -/
structure RevokeStats where
  checked_channels : Nat
  revoked_access : Nat
  errors : Nat
deriving Repr, DecidableEq

/-- Body of the inner per-user loop of
SubscriptionService.check_and_revoke_unqualified_access: recompute the
holder's effective days and revoke the grant if below the channel's
requirement; an exception (modelled at the effective-days query) is caught,
counted, and does not abort the loop. -/
def check_user_for_channel (env : Platform) (now : Int) (cfg : ChannelCfg)
    (acc : RevokeStats × World) (entry : Int × Option Nat) : RevokeStats × World :=
  let stats := acc.1
  let w := acc.2
  let uid := entry.1
  if env.effFault cfg.id uid then ({ stats with errors := stats.errors + 1 }, w)
  else
    let eff := get_effective_days w.store uid now
    if eff < cfg.daysRequired then
      let r := revoke_unqualified_channel_access env uid cfg.id w
      let w' := match r.1 with
        | some m => logCall (PCall.deleteMessage uid m) r.2
        | none => r.2
      ({ stats with revoked_access := stats.revoked_access + 1 }, w')
    else (stats, w)

/-- Body of the outer per-channel loop of
SubscriptionService.check_and_revoke_unqualified_access: skip unconfigured
entries (id 0), snapshot the channel's grant holders, and run the per-user
check over them. -/
def check_channel (env : Platform) (now : Int)
    (acc : RevokeStats × World) (cfg : ChannelCfg) : RevokeStats × World :=
  if cfg.id == 0 then acc
  else
    let stats := { acc.1 with checked_channels := acc.1.checked_channels + 1 }
    let users := get_users_with_channel_access acc.2.store cfg.id
    users.foldl (check_user_for_channel env now cfg) (stats, acc.2)

/-- SubscriptionService.check_and_revoke_unqualified_access
(src/services/subscription.py lines 145-202): the downgrade pass over the
whole catalog. -/
def check_and_revoke_unqualified_access (env : Platform) (now : Int)
    (catalog : List ChannelCfg) (w : World) : RevokeStats × World :=
  catalog.foldl (check_channel env now) (⟨0, 0, 0⟩, w)

/-- SubscriptionService.get_available_channels (src/services/subscription.py
lines 204-226): for an existing active user, the catalog entries whose
days_required is at most the user's effective days, that the user does not
already hold, and that are configured (id not 0). -/
def get_available_channels (s : Store) (now : Int) (catalog : List ChannelCfg)
    (uid : Int) : List ChannelCfg :=
  match UserModel.get s uid with
  | none => []
  | some u =>
    if !u.isActive then []
    else
      let days := get_effective_days s uid now
      catalog.filter (fun cfg =>
        cfg.daysRequired ≤ days && !(has_access s uid cfg.id) && cfg.id != 0)

/-- Statistics dict returned by process_daily_check. -/
structure Stats where
  checked : Nat
  new_access_granted : Nat
  deactivated : Nat
  unqualified_revoked : Nat
  errors : Nat
deriving Repr, DecidableEq

/-- Body of the per-channel loop of the grant pass of
SubscriptionService.process_daily_check: attempt the grant; on success send
the invite message and, if delivery succeeded, persist the message id on the
grant row and count the new access. -/
def grant_one_channel (env : Platform) (now : Int) (uid : Int)
    (acc : Stats × World) (cfg : ChannelCfg) : Stats × World :=
  let r := grant_channel_access env now uid cfg.id acc.2
  match r.1 with
  | none => (acc.1, r.2)
  | some _ =>
    let w := logCall (PCall.sendMessage uid) r.2
    if env.sendOk uid then
      let mid := w.msgCtr
      let w' : World := { store := update_message_id w.store uid cfg.id mid,
                          calls := w.calls, msgCtr := w.msgCtr + 1 }
      ({ acc.1 with new_access_granted := acc.1.new_access_granted + 1 }, w')
    else (acc.1, w)

/-- Body of the per-user loop of SubscriptionService.process_daily_check:
verify live primary-channel membership (an uncaught exception here is counted
and the user skipped), fully revoke a user whose membership is gone, and
otherwise grant every available channel. -/
def process_one_user (env : Platform) (now : Int) (mainId : Int)
    (catalog : List ChannelCfg) (acc : Stats × World) (u : User) : Stats × World :=
  let stats := { acc.1 with checked := acc.1.checked + 1 }
  let w := acc.2
  if env.memberFault u.userId then ({ stats with errors := stats.errors + 1 }, w)
  else
    let w1 := logCall (PCall.getChatMember mainId u.userId) w
    if !(env.mainMember u.userId) then
      let r := revoke_user_access env now u.userId w1
      ({ stats with deactivated := stats.deactivated + 1 }, r.2)
    else
      let avail := get_available_channels w1.store now catalog u.userId
      avail.foldl (grant_one_channel env now u.userId) (stats, w1)

/-- SubscriptionService.process_daily_check (src/services/subscription.py
lines 246-306): first the downgrade pass over the whole catalog, then the
liveness + grant pass over a snapshot of the active users. -/
def process_daily_check (env : Platform) (now : Int) (mainId : Int)
    (catalog : List ChannelCfg) (w : World) : Stats × World :=
  let r := check_and_revoke_unqualified_access env now catalog w
  let stats : Stats :=
    { checked := 0, new_access_granted := 0, deactivated := 0,
      unqualified_revoked := r.1.revoked_access, errors := r.1.errors }
  let activeUsers := UserModel.get_active_users r.2.store
  activeUsers.foldl (process_one_user env now mainId catalog) (stats, r.2)

end SubscriptionService

namespace AdminHandlers

open UserChannelModel SubscriptionService

/-- Core of handlers.admin.process_manual_grant (src/handlers/admin.py lines
712-782), after the admin check and callback parsing: require the user and
channel rows to exist and no existing grant, then call grant_channel_access
and on success deliver the link and persist the message id. -/
def process_manual_grant (env : Platform) (now : Int) (uid cid : Int)
    (w : World) : Option String × World :=
  match UserModel.get w.store uid, ChannelModel.get w.store cid with
  | some _, some _ =>
    if has_access w.store uid cid then (none, w)
    else
      let r := grant_channel_access env now uid cid w
      match r.1 with
      | some l =>
        let w1 := logCall (PCall.sendMessage uid) r.2
        if env.sendOk uid then
          let mid := w1.msgCtr
          (some l, { store := update_message_id w1.store uid cid mid,
                     calls := w1.calls, msgCtr := w1.msgCtr + 1 })
        else (some l, w1)
      | none => (none, r.2)
  | _, _ => (none, w)

/-- Body of the per-user loop of handlers.admin.process_mass_grant: grant the
first available channel; the granted counter increments only when the invite
message is also delivered. -/
def mass_grant_one (env : Platform) (now : Int) (catalog : List ChannelCfg)
    (acc : Nat × World) (u : User) : Nat × World :=
  let avail := get_available_channels acc.2.store now catalog u.userId
  match avail with
  | [] => acc
  | cfg :: _ =>
    let r := grant_channel_access env now u.userId cfg.id acc.2
    match r.1 with
    | some _ =>
      let w := logCall (PCall.sendMessage u.userId) r.2
      if env.sendOk u.userId then
        let mid := w.msgCtr
        (acc.1 + 1, { store := update_message_id w.store u.userId cfg.id mid,
                      calls := w.calls, msgCtr := w.msgCtr + 1 })
      else (acc.1, w)
    | none => (acc.1, r.2)

/-- Core of handlers.admin.process_mass_grant (src/handlers/admin.py lines
457-511), after the admin check and range parsing: for every active user in
the (bonus-free) day range, grant the first available channel. -/
def process_mass_grant (env : Platform) (now : Int) (catalog : List ChannelCfg)
    (minDays maxDays : Int) (w : World) : Nat × World :=
  let users := UserModelExtended.get_users_by_days_range w.store now minDays maxDays
  users.foldl (mass_grant_one env now catalog) (0, w)

end AdminHandlers

/-- The `users` table's PRIMARY KEY: user ids are pairwise distinct. -/
def UsersUnique (s : Store) : Prop :=
  (s.users.map (fun u => u.userId)).Nodup

/-- The `user_channels` table's UNIQUE(user_id, channel_id) constraint: grant
keys are pairwise distinct. -/
def GrantsUnique (s : Store) : Prop :=
  (s.grants.map (fun g => (g.userId, g.channelId))).Nodup

/-- Number of grant rows for one (user, channel) pair. -/
def grantCount (s : Store) (uid cid : Int) : Nat :=
  (s.grants.filter (fun g => g.userId == uid && g.channelId == cid)).length

/-- Number of invite-creation platform calls made for one (channel, user)
pair. -/
def inviteCallCount (w : World) (uid cid : Int) : Nat :=
  (w.calls.filter (fun c => c == PCall.createInvite cid uid)).length

end SubBot

namespace SubBot

section BasicLemmas

/-- Folding a step that preserves a predicate preserves it. -/
theorem foldl_preserve {α β : Type} (P : β → Prop) (f : β → α → β) (l : List α)
    (h : ∀ b a, P b → P (f b a)) : ∀ b, P b → P (l.foldl f b) := by
  induction l with
  | nil => intro b hb; simpa using hb
  | cons a t ih =>
    intro b hb
    simpa using ih (f b a) (h b a hb)

/-- Pointwise equal predicates give equal `List.any`. -/
theorem any_ext {α : Type} (l : List α) (p q : α → Bool)
    (h : ∀ a ∈ l, p a = q a) : l.any p = l.any q := by
  induction l with
  | nil => rfl
  | cons a t ih =>
    simp only [List.any_cons]
    rw [h a (List.mem_cons_self a t), ih (fun x hx => h x (List.mem_cons_of_mem a hx))]

/-- Pointwise equal predicates give equal `List.find?`. -/
theorem find_ext {α : Type} (l : List α) (p q : α → Bool)
    (h : ∀ a ∈ l, p a = q a) : l.find? p = l.find? q := by
  induction l with
  | nil => rfl
  | cons a t ih =>
    simp only [List.find?]
    rw [h a (List.mem_cons_self a t)]
    cases q a
    · exact ih (fun x hx => h x (List.mem_cons_of_mem a hx))
    · rfl

/-- In a list of users with pairwise distinct ids, looking up a member's id
finds exactly that member. -/
theorem find_of_mem_nodup (l : List User) (u : User) (hm : u ∈ l)
    (hn : (l.map (fun v => v.userId)).Nodup) :
    l.find? (fun v => v.userId == u.userId) = some u := by
  induction l with
  | nil => cases hm
  | cons a t ih =>
    rw [List.map_cons] at hn
    have hn' := List.nodup_cons.mp hn
    rcases List.mem_cons.mp hm with h | h
    · subst h
      simp [List.find?]
    · have hne : a.userId ≠ u.userId := by
        intro he
        exact hn'.1 (he ▸ List.mem_map_of_mem (fun v => v.userId) h)
      simp only [List.find?]
      rw [show (a.userId == u.userId) = false from beq_eq_false_iff_ne.mpr hne]
      exact ih h hn'.2

/-- Two members of a list mapped injectively (Nodup image) agreeing under `f`
coincide. -/
theorem eq_of_mem_nodup_map {α β : Type} (f : α → β)
    (l : List α) (hn : (l.map f).Nodup) (a b : α) (ha : a ∈ l) (hb : b ∈ l)
    (hf : f a = f b) : a = b := by
  induction l with
  | nil => cases ha
  | cons x t ih =>
    rw [List.map_cons] at hn
    have hn' := List.nodup_cons.mp hn
    rcases List.mem_cons.mp ha with h1 | h1 <;> rcases List.mem_cons.mp hb with h2 | h2
    · exact h1.trans h2.symm
    · exfalso
      have hx : f x = f b := by rw [← h1, hf]
      exact hn'.1 (hx ▸ List.mem_map_of_mem f h2)
    · exfalso
      have hx : f x = f a := by rw [← h2, ← hf]
      exact hn'.1 (hx ▸ List.mem_map_of_mem f h1)
    · exact ih hn'.2 h1 h2

end BasicLemmas

section StoreLemmas

open UserModel UserChannelModel UserModelExtended

theorem users_grant_access (s : Store) (u c n : Int) (m : Option Nat) :
    (grant_access s u c n m).users = s.users := by
  unfold grant_access
  split <;> rfl

theorem users_update_message_id (s : Store) (u c : Int) (m : Nat) :
    (update_message_id s u c m).users = s.users := rfl

theorem users_revoke_access (s : Store) (u c : Int) :
    (revoke_access s u c).users = s.users := rfl

theorem users_delete_user_grants (s : Store) (u : Int) :
    (delete_user_grants s u).users = s.users := rfl

/-- UserModel.get only reads the users table. -/
theorem get_congr_users (s t : Store) (uid : Int) (h : s.users = t.users) :
    UserModel.get s uid = UserModel.get t uid := by
  unfold UserModel.get
  rw [h]

/-- get_effective_days only reads the users table. -/
theorem eff_congr_users (s t : Store) (uid now : Int) (h : s.users = t.users) :
    get_effective_days s uid now = get_effective_days t uid now := by
  unfold get_effective_days
  rw [get_congr_users s t uid h]

theorem get_update_active_other (s : Store) (uid v : Int) (b : Bool) (n : Int)
    (h : uid ≠ v) :
    UserModel.get (update_active s v b n) uid = UserModel.get s uid := by
  unfold UserModel.get update_active
  simp only [List.find?_map]
  rw [find_ext s.users _ (fun u => u.userId == uid) ?hpt]
  case hpt =>
    intro u _
    by_cases hc : (u.userId == v) = true
    · have hv : u.userId = v := eq_of_beq hc
      simp [Function.comp, hc, hv, beq_eq_false_iff_ne, Ne.symm h]
    · simp [Function.comp, hc]
  cases hfind : s.users.find? (fun u => u.userId == uid) with
  | none => rfl
  | some u =>
    have hu := List.find?_some hfind
    have hu' : u.userId = uid := eq_of_beq hu
    have hv : (u.userId == v) = false := by
      rw [hu']
      exact beq_eq_false_iff_ne.mpr h
    simp [hv]
    intro hvv
    exact absurd (show uid = v by rw [← hu']; exact hvv) h

theorem has_access_grant_access_self (s : Store) (u c n : Int) (m : Option Nat) :
    has_access (grant_access s u c n m) u c = true := by
  unfold grant_access
  by_cases h : has_access s u c = true
  · rw [if_pos h]; exact h
  · rw [if_neg h]
    unfold has_access
    simp [List.any_append]

theorem has_access_grant_access_other (s : Store) (u c u' c' n : Int)
    (m : Option Nat) (h : ¬ (u' = u ∧ c' = c)) :
    has_access (grant_access s u c n m) u' c' = has_access s u' c' := by
  unfold grant_access
  by_cases hh : has_access s u c = true
  · rw [if_pos hh]
  · rw [if_neg hh]
    unfold has_access
    rw [List.any_append]
    rcases not_and_or.mp h with hne | hne
    · have hf : (u == u') = false := beq_eq_false_iff_ne.mpr (fun he => hne he.symm)
      simp [hf]
    · have hf : (c == c') = false := beq_eq_false_iff_ne.mpr (fun he => hne he.symm)
      simp [hf]

theorem has_access_grant_access_mono (s : Store) (u c u' c' n : Int)
    (m : Option Nat) (h : has_access s u' c' = true) :
    has_access (grant_access s u c n m) u' c' = true := by
  unfold grant_access
  by_cases hh : has_access s u c = true
  · rw [if_pos hh]; exact h
  · rw [if_neg hh]
    unfold has_access at h ⊢
    rw [List.any_append]
    simp [h]

theorem has_access_update_message_id (s : Store) (a b : Int) (m : Nat)
    (u c : Int) :
    has_access (update_message_id s a b m) u c = has_access s u c := by
  unfold has_access update_message_id
  simp only [List.any_map]
  apply any_ext
  intro g _
  by_cases hg : (g.userId == a && g.channelId == b) = true <;>
    simp [Function.comp, hg]

theorem has_access_revoke_access_self (s : Store) (u c : Int) :
    has_access (revoke_access s u c) u c = false := by
  unfold has_access revoke_access
  rw [List.any_eq_false]
  intro g hg
  have hmem := List.mem_filter.mp hg
  have hne := hmem.2
  by_cases h1 : (g.userId == u && g.channelId == c) = true
  · simp [h1] at hne
  · simpa using h1

theorem has_access_revoke_access_other (s : Store) (u c u' c' : Int)
    (h : ¬ (u' = u ∧ c' = c)) :
    has_access (revoke_access s u c) u' c' = has_access s u' c' := by
  unfold has_access revoke_access
  simp only [List.any_filter]
  apply any_ext
  intro g _
  by_cases hu : (g.userId == u' && g.channelId == c') = true
  · have h1 : g.userId = u' := eq_of_beq (Bool.and_eq_true_iff.mp hu).1
    have h2 : g.channelId = c' := eq_of_beq (Bool.and_eq_true_iff.mp hu).2
    have hne : (g.userId == u && g.channelId == c) = false := by
      rcases not_and_or.mp h with hne | hne
      · simp [h1, beq_eq_false_iff_ne, hne]
      · simp [h2, beq_eq_false_iff_ne, hne]
    simp [hu, hne]
  · simp [hu]

theorem has_access_delete_user_grants_self (s : Store) (u c : Int) :
    has_access (delete_user_grants s u) u c = false := by
  unfold has_access delete_user_grants
  rw [List.any_eq_false]
  intro g hg
  have hmem := List.mem_filter.mp hg
  have hne := hmem.2
  by_cases h1 : (g.userId == u) = true
  · simp [h1] at hne
  · simp [h1]

theorem has_access_delete_user_grants_other (s : Store) (u u' c' : Int)
    (h : u' ≠ u) :
    has_access (delete_user_grants s u) u' c' = has_access s u' c' := by
  unfold has_access delete_user_grants
  simp only [List.any_filter]
  apply any_ext
  intro g _
  by_cases hu : (g.userId == u' && g.channelId == c') = true
  · have h1 : g.userId = u' := eq_of_beq (Bool.and_eq_true_iff.mp hu).1
    simp [hu, h1, beq_eq_false_iff_ne, h]
  · simp [hu]

end StoreLemmas

section WorldLemmas

open UserModel UserChannelModel UserModelExtended SubscriptionService

/-- The call log only ever grows: `w'` extends `w`. -/
def CallsExtend (w w' : World) : Prop := ∃ t, w'.calls = w.calls ++ t

theorem callsExtend_refl (w : World) : CallsExtend w w := ⟨[], by simp⟩

theorem callsExtend_trans {w1 w2 w3 : World} (h1 : CallsExtend w1 w2)
    (h2 : CallsExtend w2 w3) : CallsExtend w1 w3 := by
  obtain ⟨t1, ht1⟩ := h1
  obtain ⟨t2, ht2⟩ := h2
  exact ⟨t1 ++ t2, by rw [ht2, ht1, List.append_assoc]⟩

theorem callsExtend_mem {w w' : World} (h : CallsExtend w w') (c : PCall)
    (hc : c ∈ w.calls) : c ∈ w'.calls := by
  obtain ⟨t, ht⟩ := h
  rw [ht]
  exact List.mem_append_left t hc

theorem callsExtend_logCall (c : PCall) (w : World) :
    CallsExtend w (logCall c w) := ⟨[c], rfl⟩

theorem callsExtend_setStore (w : World) (s : Store) :
    CallsExtend w { w with store := s } := ⟨[], by simp⟩

theorem logCall_store (c : PCall) (w : World) : (logCall c w).store = w.store := rfl

theorem grant_channel_access_store_users (env : Platform) (now u c : Int)
    (w : World) :
    (grant_channel_access env now u c w).2.store.users = w.store.users := by
  unfold grant_channel_access
  by_cases h : has_access w.store u c = true
  · rw [if_pos h]
  · rw [if_neg h]
    by_cases hi : env.inviteOk c u = true
    · rw [if_pos hi]
      exact users_grant_access _ _ _ _ _
    · rw [if_neg hi]
      rfl

theorem grant_channel_access_noop (env : Platform) (now u c : Int) (w : World)
    (h : has_access w.store u c = true) :
    grant_channel_access env now u c w = (none, w) := by
  unfold grant_channel_access
  rw [if_pos h]

theorem grant_channel_access_has_self (env : Platform) (now u c : Int)
    (w : World) (hi : env.inviteOk c u = true) :
    has_access (grant_channel_access env now u c w).2.store u c = true := by
  unfold grant_channel_access
  by_cases h : has_access w.store u c = true
  · rw [if_pos h]; exact h
  · rw [if_neg h, if_pos hi]
    exact has_access_grant_access_self _ _ _ _ _

theorem grant_channel_access_other (env : Platform) (now u c u' c' : Int)
    (w : World) (h : ¬ (u' = u ∧ c' = c)) :
    has_access (grant_channel_access env now u c w).2.store u' c' =
      has_access w.store u' c' := by
  unfold grant_channel_access
  by_cases hh : has_access w.store u c = true
  · rw [if_pos hh]
  · rw [if_neg hh]
    by_cases hi : env.inviteOk c u = true
    · rw [if_pos hi]
      exact has_access_grant_access_other _ _ _ _ _ _ _ h
    · rw [if_neg hi]
      rfl

theorem grant_channel_access_mono (env : Platform) (now u c u' c' : Int)
    (w : World) (h : has_access w.store u' c' = true) :
    has_access (grant_channel_access env now u c w).2.store u' c' = true := by
  unfold grant_channel_access
  by_cases hh : has_access w.store u c = true
  · rw [if_pos hh]; exact h
  · rw [if_neg hh]
    by_cases hi : env.inviteOk c u = true
    · rw [if_pos hi]
      exact has_access_grant_access_mono _ _ _ _ _ _ _ h
    · rw [if_neg hi]; exact h

theorem grant_channel_access_calls (env : Platform) (now u c : Int) (w : World) :
    CallsExtend w (grant_channel_access env now u c w).2 := by
  unfold grant_channel_access
  by_cases hh : has_access w.store u c = true
  · rw [if_pos hh]; exact callsExtend_refl w
  · rw [if_neg hh]
    by_cases hi : env.inviteOk c u = true
    · rw [if_pos hi]
      exact ⟨[PCall.createInvite c u], rfl⟩
    · rw [if_neg hi]
      exact ⟨[PCall.createInvite c u], rfl⟩

theorem grant_channel_access_invite_mem (env : Platform) (now u c : Int)
    (w : World) (h : has_access w.store u c = false) :
    PCall.createInvite c u ∈ (grant_channel_access env now u c w).2.calls := by
  unfold grant_channel_access
  rw [h]
  by_cases hi : env.inviteOk c u = true
  · rw [if_pos hi]
    simp [logCall]
  · rw [if_neg hi]
    simp [logCall]

theorem grant_channel_access_fail (env : Platform) (now u c : Int) (w : World)
    (hacc : has_access w.store u c = false) (hfail : env.inviteOk c u = false) :
    (grant_channel_access env now u c w).1 = none ∧
      (grant_channel_access env now u c w).2.store = w.store := by
  unfold grant_channel_access
  rw [hacc, hfail]
  simp [logCall]

theorem grant_channel_access_success (env : Platform) (now u c : Int) (w : World)
    (hacc : has_access w.store u c = false) (hi : env.inviteOk c u = true) :
    grant_channel_access env now u c w =
      (some ("invite_user_" ++ toString u),
        { store := grant_access w.store u c now none,
          calls := w.calls ++ [PCall.createInvite c u], msgCtr := w.msgCtr }) := by
  unfold grant_channel_access
  rw [hacc, hi]
  simp [logCall]

theorem revoke_fold_store (uid : Int) (l : List Grant) :
    ∀ acc : List Nat × World,
      (l.foldl (revoke_channel_step uid) acc).2.store = acc.2.store := by
  induction l with
  | nil => intro acc; rfl
  | cons g t ih =>
    intro acc
    rw [List.foldl_cons, ih]
    cases g.messageId <;> rfl

theorem revoke_fold_calls (uid : Int) (l : List Grant) :
    ∀ acc : List Nat × World,
      ∃ t, (l.foldl (revoke_channel_step uid) acc).2.calls = acc.2.calls ++ t := by
  induction l with
  | nil =>
    intro acc
    exact ⟨[], by simp⟩
  | cons g tl ih =>
    intro acc
    rw [List.foldl_cons]
    obtain ⟨t, ht⟩ := ih (revoke_channel_step uid acc g)
    refine ⟨[PCall.banMember g.channelId uid, PCall.unbanMember g.channelId uid] ++ t, ?h⟩
    rw [ht]
    have hstep : (revoke_channel_step uid acc g).2.calls =
        acc.2.calls ++ [PCall.banMember g.channelId uid, PCall.unbanMember g.channelId uid] := by
      cases g.messageId <;> simp [revoke_channel_step, logCall]
    rw [hstep, List.append_assoc]

theorem revoke_user_access_store (env : Platform) (now u : Int) (w : World) :
    (revoke_user_access env now u w).2.store =
      UserModel.update_active (delete_user_grants w.store u) u false now := by
  have h := revoke_fold_store u (revoke_all_infos w.store u)
      ([], { store := delete_user_grants w.store u, calls := w.calls, msgCtr := w.msgCtr })
  exact congrArg (fun st => UserModel.update_active st u false now) h

theorem revoke_user_access_calls (env : Platform) (now u : Int) (w : World) :
    CallsExtend w (revoke_user_access env now u w).2 := by
  obtain ⟨t, ht⟩ := revoke_fold_calls u (revoke_all_infos w.store u)
      ([], { store := delete_user_grants w.store u, calls := w.calls, msgCtr := w.msgCtr })
  exact ⟨t, ht⟩

theorem revoke_unqualified_store (env : Platform) (u c : Int) (w : World) :
    (revoke_unqualified_channel_access env u c w).2.store =
      revoke_access w.store u c := rfl

theorem revoke_unqualified_calls (env : Platform) (u c : Int) (w : World) :
    CallsExtend w (revoke_unqualified_channel_access env u c w).2 := by
  refine ⟨[PCall.banMember c u, PCall.unbanMember c u, PCall.sendMessage u], ?h⟩
  simp [revoke_unqualified_channel_access, logCall]

end WorldLemmas

section DowngradeLemmas

open UserModel UserChannelModel UserModelExtended SubscriptionService

/-- Membership-restricted fold preservation. -/
theorem foldl_preserve_mem {α β : Type} (P : β → Prop) (f : β → α → β)
    (l : List α) (h : ∀ b, ∀ a ∈ l, P b → P (f b a)) :
    ∀ b, P b → P (l.foldl f b) := by
  induction l with
  | nil => intro b hb; simpa using hb
  | cons a t ih =>
    intro b hb
    rw [List.foldl_cons]
    exact ih (fun b' a' ha' hb' => h b' a' (List.mem_cons_of_mem a ha') hb')
      (f b a) (h b a (List.mem_cons_self a t) hb)

/-- A grant holder with an existing user row appears in the channel's
holder snapshot. -/
theorem mem_users_with_access (s : Store) (u c : Int)
    (hacc : has_access s u c = true) (hget : (UserModel.get s u).isSome) :
    ∃ m, (u, m) ∈ get_users_with_channel_access s c := by
  unfold has_access at hacc
  rw [List.any_eq_true] at hacc
  obtain ⟨g, hg, hpg⟩ := hacc
  have h1 : g.userId = u := eq_of_beq (Bool.and_eq_true_iff.mp hpg).1
  have h2 : g.channelId = c := eq_of_beq (Bool.and_eq_true_iff.mp hpg).2
  refine ⟨g.messageId, ?hmem⟩
  unfold get_users_with_channel_access
  rw [List.mem_filterMap]
  refine ⟨g, ?hfil, ?hmap⟩
  · rw [List.mem_filter]
    exact ⟨hg, by rw [h2]; exact beq_self_eq_true c⟩
  · rw [h1]
    obtain ⟨ur, hur⟩ := Option.isSome_iff_exists.mp hget
    rw [hur]
    rfl

theorem check_user_users (env : Platform) (now : Int) (cfg : ChannelCfg)
    (acc : RevokeStats × World) (e : Int × Option Nat) :
    (check_user_for_channel env now cfg acc e).2.store.users =
      acc.2.store.users := by
  unfold check_user_for_channel
  by_cases hf : env.effFault cfg.id e.1 = true
  · rw [if_pos hf]
  · rw [if_neg hf]
    by_cases he : get_effective_days acc.2.store e.1 now < cfg.daysRequired
    · rw [if_pos he]
      have hst : ∀ r : Option Nat × World,
          r.2.store = revoke_access acc.2.store e.1 cfg.id →
          (match r.1 with
            | some m => logCall (PCall.deleteMessage e.1 m) r.2
            | none => r.2).store.users = acc.2.store.users := by
        intro r hr
        cases r.1 <;>
          · show r.2.store.users = acc.2.store.users
            rw [hr]
            rfl
      exact hst _ (revoke_unqualified_store env e.1 cfg.id acc.2)
    · rw [if_neg he]

theorem check_user_mono_false (env : Platform) (now : Int) (cfg : ChannelCfg)
    (acc : RevokeStats × World) (e : Int × Option Nat) (u' c' : Int)
    (h : has_access acc.2.store u' c' = false) :
    has_access (check_user_for_channel env now cfg acc e).2.store u' c' = false := by
  unfold check_user_for_channel
  by_cases hf : env.effFault cfg.id e.1 = true
  · rw [if_pos hf]; exact h
  · rw [if_neg hf]
    by_cases he : get_effective_days acc.2.store e.1 now < cfg.daysRequired
    · rw [if_pos he]
      have hst : ∀ r : Option Nat × World,
          r.2.store = revoke_access acc.2.store e.1 cfg.id →
          has_access (match r.1 with
            | some m => logCall (PCall.deleteMessage e.1 m) r.2
            | none => r.2).store u' c' = false := by
        intro r hr
        cases r.1 <;>
          · show has_access r.2.store u' c' = false
            rw [hr]
            by_cases hcase : (u' = e.1 ∧ c' = cfg.id)
            · obtain ⟨h1, h2⟩ := hcase
              rw [h1, h2]
              exact has_access_revoke_access_self _ _ _
            · rw [has_access_revoke_access_other _ _ _ _ _ hcase]
              exact h
      exact hst _ (revoke_unqualified_store env e.1 cfg.id acc.2)
    · rw [if_neg he]; exact h

theorem check_user_other_channel (env : Platform) (now : Int) (cfg : ChannelCfg)
    (acc : RevokeStats × World) (e : Int × Option Nat) (u' c' : Int)
    (h : c' ≠ cfg.id) :
    has_access (check_user_for_channel env now cfg acc e).2.store u' c' =
      has_access acc.2.store u' c' := by
  unfold check_user_for_channel
  by_cases hf : env.effFault cfg.id e.1 = true
  · rw [if_pos hf]
  · rw [if_neg hf]
    by_cases he : get_effective_days acc.2.store e.1 now < cfg.daysRequired
    · rw [if_pos he]
      have hst : ∀ r : Option Nat × World,
          r.2.store = revoke_access acc.2.store e.1 cfg.id →
          has_access (match r.1 with
            | some m => logCall (PCall.deleteMessage e.1 m) r.2
            | none => r.2).store u' c' = has_access acc.2.store u' c' := by
        intro r hr
        cases r.1 <;>
          · show has_access r.2.store u' c' = has_access acc.2.store u' c'
            rw [hr]
            exact has_access_revoke_access_other _ _ _ _ _ (fun hc => h hc.2)
      exact hst _ (revoke_unqualified_store env e.1 cfg.id acc.2)
    · rw [if_neg he]

theorem check_user_calls (env : Platform) (now : Int) (cfg : ChannelCfg)
    (acc : RevokeStats × World) (e : Int × Option Nat) :
    CallsExtend acc.2 (check_user_for_channel env now cfg acc e).2 := by
  unfold check_user_for_channel
  by_cases hf : env.effFault cfg.id e.1 = true
  · rw [if_pos hf]; exact callsExtend_refl _
  · rw [if_neg hf]
    by_cases he : get_effective_days acc.2.store e.1 now < cfg.daysRequired
    · rw [if_pos he]
      have hr := revoke_unqualified_calls env e.1 cfg.id acc.2
      cases hm : (revoke_unqualified_channel_access env e.1 cfg.id acc.2).1 with
      | none => simpa [hm] using hr
      | some m =>
        simp only [hm]
        exact callsExtend_trans hr (callsExtend_logCall _ _)
    · rw [if_neg he]; exact callsExtend_refl _

theorem check_fold_users (env : Platform) (now : Int) (cfg : ChannelCfg)
    (l : List (Int × Option Nat)) :
    ∀ acc : RevokeStats × World,
      ((l.foldl (check_user_for_channel env now cfg) acc)).2.store.users =
        acc.2.store.users := by
  induction l with
  | nil => intro acc; rfl
  | cons e t ih =>
    intro acc
    rw [List.foldl_cons, ih, check_user_users]

theorem check_fold_mono_false (env : Platform) (now : Int) (cfg : ChannelCfg)
    (l : List (Int × Option Nat)) (u' c' : Int) :
    ∀ acc : RevokeStats × World, has_access acc.2.store u' c' = false →
      has_access ((l.foldl (check_user_for_channel env now cfg) acc)).2.store u' c' = false := by
  intro acc h
  exact foldl_preserve (fun b => has_access b.2.store u' c' = false) _ l
    (fun b a hb => check_user_mono_false env now cfg b a u' c' hb) acc h

theorem check_fold_other_channel (env : Platform) (now : Int) (cfg : ChannelCfg)
    (l : List (Int × Option Nat)) (u' c' : Int) (h : c' ≠ cfg.id) :
    ∀ acc : RevokeStats × World,
      has_access ((l.foldl (check_user_for_channel env now cfg) acc)).2.store u' c' =
        has_access acc.2.store u' c' := by
  induction l with
  | nil => intro acc; rfl
  | cons e t ih =>
    intro acc
    rw [List.foldl_cons, ih, check_user_other_channel env now cfg acc e u' c' h]

theorem check_user_revokes_self (env : Platform) (now : Int) (cfg : ChannelCfg)
    (acc : RevokeStats × World) (e : Int × Option Nat)
    (hf : env.effFault cfg.id e.1 = false)
    (he : get_effective_days acc.2.store e.1 now < cfg.daysRequired) :
    has_access (check_user_for_channel env now cfg acc e).2.store e.1 cfg.id = false := by
  unfold check_user_for_channel
  rw [if_neg (show ¬ env.effFault cfg.id e.1 = true by rw [hf]; exact Bool.false_ne_true)]
  rw [if_pos he]
  have hst : ∀ r : Option Nat × World,
      r.2.store = revoke_access acc.2.store e.1 cfg.id →
      has_access (match r.1 with
        | some mm => logCall (PCall.deleteMessage e.1 mm) r.2
        | none => r.2).store e.1 cfg.id = false := by
    intro r hr
    cases r.1 <;>
      · show has_access r.2.store e.1 cfg.id = false
        rw [hr]
        exact has_access_revoke_access_self _ _ _
  exact hst _ (revoke_unqualified_store env e.1 cfg.id acc.2)

theorem check_fold_removes (env : Platform) (now : Int) (cfg : ChannelCfg)
    (u : Int) (l : List (Int × Option Nat)) :
    ∀ acc : RevokeStats × World, ∀ m : Option Nat, (u, m) ∈ l →
      env.effFault cfg.id u = false →
      get_effective_days acc.2.store u now < cfg.daysRequired →
      has_access ((l.foldl (check_user_for_channel env now cfg) acc)).2.store u cfg.id = false := by
  induction l with
  | nil => intro acc m hm; cases hm
  | cons e t ih =>
    intro acc m hm hf he
    rw [List.foldl_cons]
    by_cases hv : e.1 = u
    · apply check_fold_mono_false
      have hstep := check_user_revokes_self env now cfg acc e
        (by rw [hv]; exact hf) (by rw [hv]; exact he)
      rw [hv] at hstep
      exact hstep
    · have hmem : (u, m) ∈ t := by
        rcases List.mem_cons.mp hm with h1 | h1
        · exact absurd (congrArg Prod.fst h1.symm) hv
        · exact h1
      apply ih _ m hmem hf
      rw [eff_congr_users _ acc.2.store u now (check_user_users env now cfg acc e)]
      exact he

theorem check_channel_users (env : Platform) (now : Int)
    (acc : RevokeStats × World) (cfg : ChannelCfg) :
    (check_channel env now acc cfg).2.store.users = acc.2.store.users := by
  unfold check_channel
  by_cases h0 : (cfg.id == 0) = true
  · rw [if_pos h0]
  · rw [if_neg h0]
    exact check_fold_users env now cfg _ _

theorem check_channel_mono_false (env : Platform) (now : Int)
    (acc : RevokeStats × World) (cfg : ChannelCfg) (u' c' : Int)
    (h : has_access acc.2.store u' c' = false) :
    has_access (check_channel env now acc cfg).2.store u' c' = false := by
  unfold check_channel
  by_cases h0 : (cfg.id == 0) = true
  · rw [if_pos h0]; exact h
  · rw [if_neg h0]
    exact check_fold_mono_false env now cfg _ u' c' _ h

theorem check_channel_other_channel (env : Platform) (now : Int)
    (acc : RevokeStats × World) (cfg : ChannelCfg) (u' c' : Int)
    (h : c' ≠ cfg.id) :
    has_access (check_channel env now acc cfg).2.store u' c' =
      has_access acc.2.store u' c' := by
  unfold check_channel
  by_cases h0 : (cfg.id == 0) = true
  · rw [if_pos h0]
  · rw [if_neg h0]
    exact check_fold_other_channel env now cfg _ u' c' h _

theorem check_channel_removes (env : Platform) (now : Int)
    (acc : RevokeStats × World) (cfg : ChannelCfg)
    (u : Int) (h0 : cfg.id ≠ 0)
    (hacc : has_access acc.2.store u cfg.id = true)
    (hget : (UserModel.get acc.2.store u).isSome)
    (hf : env.effFault cfg.id u = false)
    (he : get_effective_days acc.2.store u now < cfg.daysRequired) :
    has_access (check_channel env now acc cfg).2.store u cfg.id = false := by
  unfold check_channel
  rw [if_neg (by simpa using h0)]
  obtain ⟨m, hm⟩ := mem_users_with_access acc.2.store u cfg.id hacc hget
  exact check_fold_removes env now cfg u _ _ m hm hf he

end DowngradeLemmas

section DowngradePassLemmas

open UserModel UserChannelModel UserModelExtended SubscriptionService

theorem check_channel_calls (env : Platform) (now : Int)
    (acc : RevokeStats × World) (cfg : ChannelCfg) :
    CallsExtend acc.2 (check_channel env now acc cfg).2 := by
  unfold check_channel
  by_cases h0 : (cfg.id == 0) = true
  · rw [if_pos h0]; exact callsExtend_refl _
  · rw [if_neg h0]
    have hfold : ∀ (l : List (Int × Option Nat)) (b : RevokeStats × World),
        CallsExtend b.2 ((l.foldl (check_user_for_channel env now cfg) b)).2 := by
      intro l
      induction l with
      | nil => intro b; exact callsExtend_refl _
      | cons e t ih =>
        intro b
        rw [List.foldl_cons]
        exact callsExtend_trans (check_user_calls env now cfg b e) (ih _)
    exact hfold _ _

theorem downgrade_users (env : Platform) (now : Int) (catalog : List ChannelCfg)
    (w : World) :
    (check_and_revoke_unqualified_access env now catalog w).2.store.users =
      w.store.users := by
  unfold check_and_revoke_unqualified_access
  have h := foldl_preserve (fun b : RevokeStats × World => b.2.store.users = w.store.users)
    (check_channel env now) catalog
    (fun b a hb => by
      show (check_channel env now b a).2.store.users = w.store.users
      rw [check_channel_users]
      exact hb) (⟨0, 0, 0⟩, w) rfl
  exact h

theorem downgrade_mono_false (env : Platform) (now : Int)
    (catalog : List ChannelCfg) (w : World) (u' c' : Int)
    (h : has_access w.store u' c' = false) :
    has_access (check_and_revoke_unqualified_access env now catalog w).2.store u' c' = false := by
  unfold check_and_revoke_unqualified_access
  exact foldl_preserve (fun b : RevokeStats × World => has_access b.2.store u' c' = false)
    (check_channel env now) catalog
    (fun b a hb => check_channel_mono_false env now b a u' c' hb) (⟨0, 0, 0⟩, w) h

theorem downgrade_calls (env : Platform) (now : Int) (catalog : List ChannelCfg)
    (w : World) :
    CallsExtend w (check_and_revoke_unqualified_access env now catalog w).2 := by
  unfold check_and_revoke_unqualified_access
  have hfold : ∀ (l : List ChannelCfg) (b : RevokeStats × World),
      CallsExtend b.2 ((l.foldl (check_channel env now) b)).2 := by
    intro l
    induction l with
    | nil => intro b; exact callsExtend_refl _
    | cons cfg t ih =>
      intro b
      rw [List.foldl_cons]
      exact callsExtend_trans (check_channel_calls env now b cfg) (ih _)
  exact hfold catalog (⟨0, 0, 0⟩, w)

/-- After the whole downgrade pass, a grant whose holder is below the
channel's requirement is gone. -/
theorem downgrade_removes (env : Platform) (now : Int)
    (catalog : List ChannelCfg) (w : World) (u : Int) (c : ChannelCfg)
    (hmem : c ∈ catalog) (hnodup : (catalog.map (fun x => x.id)).Nodup)
    (h0 : c.id ≠ 0) (hacc : has_access w.store u c.id = true)
    (hget : (UserModel.get w.store u).isSome)
    (hf : env.effFault c.id u = false)
    (he : get_effective_days w.store u now < c.daysRequired) :
    has_access (check_and_revoke_unqualified_access env now catalog w).2.store u c.id = false := by
  obtain ⟨l1, l2, hcat⟩ := List.append_of_mem hmem
  subst hcat
  have hnotin : c.id ∉ l1.map (fun x => x.id) := by
    rw [List.map_append, List.map_cons] at hnodup
    have hd := (List.nodup_append.mp hnodup).2.2
    intro hin
    exact hd hin (List.mem_cons_self _ _)
  unfold check_and_revoke_unqualified_access
  rw [List.foldl_append, List.foldl_cons]
  set b1 := l1.foldl (check_channel env now) (⟨0, 0, 0⟩, w) with hb1
  have hinv : b1.2.store.users = w.store.users ∧ has_access b1.2.store u c.id = true := by
    rw [hb1]
    refine foldl_preserve_mem
      (fun b : RevokeStats × World =>
        b.2.store.users = w.store.users ∧ has_access b.2.store u c.id = true)
      (check_channel env now) l1 ?hstep (⟨0, 0, 0⟩, w) ⟨rfl, hacc⟩
    intro b cfg hcfg hb
    have hne : c.id ≠ cfg.id := by
      intro hEq
      exact hnotin (hEq ▸ List.mem_map_of_mem (fun x => x.id) hcfg)
    constructor
    · rw [check_channel_users]; exact hb.1
    · rw [check_channel_other_channel env now b cfg u c.id hne]
      exact hb.2
  have hmid : has_access (check_channel env now b1 c).2.store u c.id = false := by
    apply check_channel_removes env now b1 c u h0 hinv.2
    · rw [get_congr_users b1.2.store w.store u hinv.1]
      exact hget
    · exact hf
    · rw [eff_congr_users b1.2.store w.store u now hinv.1]
      exact he
  exact foldl_preserve (fun b : RevokeStats × World => has_access b.2.store u c.id = false)
    (check_channel env now) l2
    (fun b a hb => check_channel_mono_false env now b a u c.id hb) _ hmid

end DowngradePassLemmas

section GrantPassLemmas

open UserModel UserChannelModel UserModelExtended SubscriptionService

theorem grant_one_channel_users (env : Platform) (now uid : Int)
    (acc : Stats × World) (cfg : ChannelCfg) :
    (grant_one_channel env now uid acc cfg).2.store.users = acc.2.store.users := by
  unfold grant_one_channel
  have hst : ∀ r : Option String × World, r.2.store.users = acc.2.store.users →
      (match r.1 with
        | none => (acc.1, r.2)
        | some _ =>
          let w := logCall (PCall.sendMessage uid) r.2
          if env.sendOk uid then
            let mid := w.msgCtr
            let w' : World := { store := update_message_id w.store uid cfg.id mid,
                                calls := w.calls, msgCtr := w.msgCtr + 1 }
            ({ acc.1 with new_access_granted := acc.1.new_access_granted + 1 }, w')
          else (acc.1, w)).2.store.users = acc.2.store.users := by
    intro r hr
    cases r.1 with
    | none => exact hr
    | some l =>
      by_cases hs : env.sendOk uid = true
      · rw [if_pos hs]
        show (update_message_id (logCall (PCall.sendMessage uid) r.2).store uid cfg.id
          (logCall (PCall.sendMessage uid) r.2).msgCtr).users = acc.2.store.users
        rw [users_update_message_id]
        exact hr
      · rw [if_neg hs]
        exact hr
  exact hst _ (grant_channel_access_store_users env now uid cfg.id acc.2)

theorem grant_one_channel_mono (env : Platform) (now uid : Int)
    (acc : Stats × World) (cfg : ChannelCfg) (u' c' : Int)
    (h : has_access acc.2.store u' c' = true) :
    has_access (grant_one_channel env now uid acc cfg).2.store u' c' = true := by
  unfold grant_one_channel
  have hst : ∀ r : Option String × World, has_access r.2.store u' c' = true →
      has_access (match r.1 with
        | none => (acc.1, r.2)
        | some _ =>
          let w := logCall (PCall.sendMessage uid) r.2
          if env.sendOk uid then
            let mid := w.msgCtr
            let w' : World := { store := update_message_id w.store uid cfg.id mid,
                                calls := w.calls, msgCtr := w.msgCtr + 1 }
            ({ acc.1 with new_access_granted := acc.1.new_access_granted + 1 }, w')
          else (acc.1, w)).2.store u' c' = true := by
    intro r hr
    cases r.1 with
    | none => exact hr
    | some l =>
      by_cases hs : env.sendOk uid = true
      · rw [if_pos hs]
        show has_access (update_message_id (logCall (PCall.sendMessage uid) r.2).store uid cfg.id
          (logCall (PCall.sendMessage uid) r.2).msgCtr) u' c' = true
        rw [has_access_update_message_id]
        exact hr
      · rw [if_neg hs]
        exact hr
  exact hst _ (grant_channel_access_mono env now uid cfg.id u' c' acc.2 h)

theorem grant_one_channel_other (env : Platform) (now uid : Int)
    (acc : Stats × World) (cfg : ChannelCfg) (u' c' : Int)
    (h : ¬ (u' = uid ∧ c' = cfg.id)) :
    has_access (grant_one_channel env now uid acc cfg).2.store u' c' =
      has_access acc.2.store u' c' := by
  unfold grant_one_channel
  have hst : ∀ r : Option String × World,
      has_access r.2.store u' c' = has_access acc.2.store u' c' →
      has_access (match r.1 with
        | none => (acc.1, r.2)
        | some _ =>
          let w := logCall (PCall.sendMessage uid) r.2
          if env.sendOk uid then
            let mid := w.msgCtr
            let w' : World := { store := update_message_id w.store uid cfg.id mid,
                                calls := w.calls, msgCtr := w.msgCtr + 1 }
            ({ acc.1 with new_access_granted := acc.1.new_access_granted + 1 }, w')
          else (acc.1, w)).2.store u' c' = has_access acc.2.store u' c' := by
    intro r hr
    cases r.1 with
    | none => exact hr
    | some l =>
      by_cases hs : env.sendOk uid = true
      · rw [if_pos hs]
        show has_access (update_message_id (logCall (PCall.sendMessage uid) r.2).store uid cfg.id
          (logCall (PCall.sendMessage uid) r.2).msgCtr) u' c' = has_access acc.2.store u' c'
        rw [has_access_update_message_id]
        exact hr
      · rw [if_neg hs]
        exact hr
  exact hst _ (grant_channel_access_other env now uid cfg.id u' c' acc.2 h)

theorem grant_one_channel_calls (env : Platform) (now uid : Int)
    (acc : Stats × World) (cfg : ChannelCfg) :
    CallsExtend acc.2 (grant_one_channel env now uid acc cfg).2 := by
  unfold grant_one_channel
  have hst : ∀ r : Option String × World, CallsExtend acc.2 r.2 →
      CallsExtend acc.2 (match r.1 with
        | none => (acc.1, r.2)
        | some _ =>
          let w := logCall (PCall.sendMessage uid) r.2
          if env.sendOk uid then
            let mid := w.msgCtr
            let w' : World := { store := update_message_id w.store uid cfg.id mid,
                                calls := w.calls, msgCtr := w.msgCtr + 1 }
            ({ acc.1 with new_access_granted := acc.1.new_access_granted + 1 }, w')
          else (acc.1, w)).2 := by
    intro r hr
    cases r.1 with
    | none => exact hr
    | some l =>
      by_cases hs : env.sendOk uid = true
      · rw [if_pos hs]
        refine callsExtend_trans hr ?h1
        refine callsExtend_trans (callsExtend_logCall (PCall.sendMessage uid) r.2) ?h2
        exact ⟨[], by simp [logCall]⟩
      · rw [if_neg hs]
        exact callsExtend_trans hr (callsExtend_logCall _ _)
  exact hst _ (grant_channel_access_calls env now uid cfg.id acc.2)

theorem grant_one_channel_has_self (env : Platform) (now uid : Int)
    (acc : Stats × World) (cfg : ChannelCfg) (hi : env.inviteOk cfg.id uid = true) :
    has_access (grant_one_channel env now uid acc cfg).2.store uid cfg.id = true := by
  unfold grant_one_channel
  have hst : ∀ r : Option String × World, has_access r.2.store uid cfg.id = true →
      has_access (match r.1 with
        | none => (acc.1, r.2)
        | some _ =>
          let w := logCall (PCall.sendMessage uid) r.2
          if env.sendOk uid then
            let mid := w.msgCtr
            let w' : World := { store := update_message_id w.store uid cfg.id mid,
                                calls := w.calls, msgCtr := w.msgCtr + 1 }
            ({ acc.1 with new_access_granted := acc.1.new_access_granted + 1 }, w')
          else (acc.1, w)).2.store uid cfg.id = true := by
    intro r hr
    cases r.1 with
    | none => exact hr
    | some l =>
      by_cases hs : env.sendOk uid = true
      · rw [if_pos hs]
        show has_access (update_message_id (logCall (PCall.sendMessage uid) r.2).store uid cfg.id
          (logCall (PCall.sendMessage uid) r.2).msgCtr) uid cfg.id = true
        rw [has_access_update_message_id]
        exact hr
      · rw [if_neg hs]
        exact hr
  exact hst _ (grant_channel_access_has_self env now uid cfg.id acc.2 hi)

theorem grant_one_channel_invite_mem (env : Platform) (now uid : Int)
    (acc : Stats × World) (cfg : ChannelCfg)
    (hacc : has_access acc.2.store uid cfg.id = false) :
    PCall.createInvite cfg.id uid ∈ (grant_one_channel env now uid acc cfg).2.calls := by
  unfold grant_one_channel
  have hst : ∀ r : Option String × World,
      PCall.createInvite cfg.id uid ∈ r.2.calls →
      PCall.createInvite cfg.id uid ∈ (match r.1 with
        | none => (acc.1, r.2)
        | some _ =>
          let w := logCall (PCall.sendMessage uid) r.2
          if env.sendOk uid then
            let mid := w.msgCtr
            let w' : World := { store := update_message_id w.store uid cfg.id mid,
                                calls := w.calls, msgCtr := w.msgCtr + 1 }
            ({ acc.1 with new_access_granted := acc.1.new_access_granted + 1 }, w')
          else (acc.1, w)).2.calls := by
    intro r hr
    cases r.1 with
    | none => exact hr
    | some l =>
      by_cases hs : env.sendOk uid = true
      · rw [if_pos hs]
        show PCall.createInvite cfg.id uid ∈ (logCall (PCall.sendMessage uid) r.2).calls
        exact callsExtend_mem (callsExtend_logCall _ _) _ hr
      · rw [if_neg hs]
        exact callsExtend_mem (callsExtend_logCall _ _) _ hr
  exact hst _ (grant_channel_access_invite_mem env now uid cfg.id acc.2 hacc)

theorem grant_one_channel_stats (env : Platform) (now uid : Int)
    (acc : Stats × World) (cfg : ChannelCfg) :
    (grant_one_channel env now uid acc cfg).1.checked = acc.1.checked ∧
      (grant_one_channel env now uid acc cfg).1.errors = acc.1.errors ∧
      (grant_one_channel env now uid acc cfg).1.deactivated = acc.1.deactivated := by
  unfold grant_one_channel
  have hst : ∀ r : Option String × World,
      ((match r.1 with
        | none => (acc.1, r.2)
        | some _ =>
          let w := logCall (PCall.sendMessage uid) r.2
          if env.sendOk uid then
            let mid := w.msgCtr
            let w' : World := { store := update_message_id w.store uid cfg.id mid,
                                calls := w.calls, msgCtr := w.msgCtr + 1 }
            ({ acc.1 with new_access_granted := acc.1.new_access_granted + 1 }, w')
          else (acc.1, w)) : Stats × World).1.checked = acc.1.checked ∧
      ((match r.1 with
        | none => (acc.1, r.2)
        | some _ =>
          let w := logCall (PCall.sendMessage uid) r.2
          if env.sendOk uid then
            let mid := w.msgCtr
            let w' : World := { store := update_message_id w.store uid cfg.id mid,
                                calls := w.calls, msgCtr := w.msgCtr + 1 }
            ({ acc.1 with new_access_granted := acc.1.new_access_granted + 1 }, w')
          else (acc.1, w)) : Stats × World).1.errors = acc.1.errors ∧
      ((match r.1 with
        | none => (acc.1, r.2)
        | some _ =>
          let w := logCall (PCall.sendMessage uid) r.2
          if env.sendOk uid then
            let mid := w.msgCtr
            let w' : World := { store := update_message_id w.store uid cfg.id mid,
                                calls := w.calls, msgCtr := w.msgCtr + 1 }
            ({ acc.1 with new_access_granted := acc.1.new_access_granted + 1 }, w')
          else (acc.1, w)) : Stats × World).1.deactivated = acc.1.deactivated := by
    intro r
    cases r.1 with
    | none => exact ⟨rfl, rfl, rfl⟩
    | some l =>
      by_cases hs : env.sendOk uid = true
      · rw [if_pos hs]
        exact ⟨rfl, rfl, rfl⟩
      · rw [if_neg hs]
        exact ⟨rfl, rfl, rfl⟩
  exact hst (grant_channel_access env now uid cfg.id acc.2)

end GrantPassLemmas

section AvailFoldLemmas

open UserModel UserChannelModel UserModelExtended SubscriptionService

theorem gfold_users (env : Platform) (now uid : Int) (l : List ChannelCfg) :
    ∀ acc : Stats × World,
      ((l.foldl (grant_one_channel env now uid) acc)).2.store.users =
        acc.2.store.users := by
  induction l with
  | nil => intro acc; rfl
  | cons a t ih =>
    intro acc
    rw [List.foldl_cons, ih, grant_one_channel_users]

theorem gfold_mono (env : Platform) (now uid : Int) (l : List ChannelCfg)
    (u' c' : Int) :
    ∀ acc : Stats × World, has_access acc.2.store u' c' = true →
      has_access ((l.foldl (grant_one_channel env now uid) acc)).2.store u' c' = true := by
  intro acc h
  exact foldl_preserve (fun b : Stats × World => has_access b.2.store u' c' = true)
    (grant_one_channel env now uid) l
    (fun b a hb => grant_one_channel_mono env now uid b a u' c' hb) acc h

theorem gfold_other_user (env : Platform) (now uid : Int) (l : List ChannelCfg)
    (u' c' : Int) (h : u' ≠ uid) :
    ∀ acc : Stats × World,
      has_access ((l.foldl (grant_one_channel env now uid) acc)).2.store u' c' =
        has_access acc.2.store u' c' := by
  induction l with
  | nil => intro acc; rfl
  | cons a t ih =>
    intro acc
    rw [List.foldl_cons, ih,
      grant_one_channel_other env now uid acc a u' c' (fun hx => h hx.1)]

theorem gfold_no_channel (env : Platform) (now uid : Int) (l : List ChannelCfg)
    (c' : Int) (h : ∀ cfg ∈ l, cfg.id ≠ c') :
    ∀ acc : Stats × World,
      has_access ((l.foldl (grant_one_channel env now uid) acc)).2.store uid c' =
        has_access acc.2.store uid c' := by
  induction l with
  | nil => intro acc; rfl
  | cons a t ih =>
    intro acc
    rw [List.foldl_cons,
      ih (fun cfg hc => h cfg (List.mem_cons_of_mem a hc)),
      grant_one_channel_other env now uid acc a uid c'
        (fun hx => h a (List.mem_cons_self a t) hx.2.symm)]

theorem gfold_calls (env : Platform) (now uid : Int) (l : List ChannelCfg) :
    ∀ acc : Stats × World,
      CallsExtend acc.2 ((l.foldl (grant_one_channel env now uid) acc)).2 := by
  induction l with
  | nil => intro acc; exact callsExtend_refl _
  | cons a t ih =>
    intro acc
    rw [List.foldl_cons]
    exact callsExtend_trans (grant_one_channel_calls env now uid acc a) (ih _)

theorem gfold_mem (env : Platform) (now uid : Int) (l : List ChannelCfg)
    (cfg : ChannelCfg) (hi : env.inviteOk cfg.id uid = true) :
    ∀ acc : Stats × World, cfg ∈ l →
      has_access ((l.foldl (grant_one_channel env now uid) acc)).2.store uid cfg.id = true := by
  induction l with
  | nil => intro acc hm; cases hm
  | cons a t ih =>
    intro acc hm
    rw [List.foldl_cons]
    rcases List.mem_cons.mp hm with h1 | h1
    · subst h1
      exact gfold_mono env now uid t uid cfg.id _
        (grant_one_channel_has_self env now uid acc cfg hi)
    · exact ih _ h1

theorem gfold_invite_mem (env : Platform) (now uid : Int) (l : List ChannelCfg)
    (cfg : ChannelCfg) :
    ∀ acc : Stats × World, cfg ∈ l →
      has_access acc.2.store uid cfg.id = false →
      PCall.createInvite cfg.id uid ∈
        ((l.foldl (grant_one_channel env now uid) acc)).2.calls := by
  induction l with
  | nil => intro acc hm; cases hm
  | cons a t ih =>
    intro acc hm hacc
    rw [List.foldl_cons]
    by_cases hid : a.id = cfg.id
    · have hmem : PCall.createInvite cfg.id uid ∈
          (grant_one_channel env now uid acc a).2.calls := by
        have := grant_one_channel_invite_mem env now uid acc a (by rw [hid]; exact hacc)
        rw [hid] at this
        exact this
      exact callsExtend_mem (gfold_calls env now uid t _) _ hmem
    · have hacc' : has_access (grant_one_channel env now uid acc a).2.store uid cfg.id = false := by
        rw [grant_one_channel_other env now uid acc a uid cfg.id
          (fun hx => hid hx.2.symm)]
        exact hacc
      have hm' : cfg ∈ t := by
        rcases List.mem_cons.mp hm with h1 | h1
        · exact absurd (congrArg (fun x => ChannelCfg.id x) h1.symm) hid
        · exact h1
      exact ih _ hm' hacc'

theorem gfold_stats (env : Platform) (now uid : Int) (l : List ChannelCfg) :
    ∀ acc : Stats × World,
      ((l.foldl (grant_one_channel env now uid) acc)).1.checked = acc.1.checked ∧
      ((l.foldl (grant_one_channel env now uid) acc)).1.errors = acc.1.errors ∧
      ((l.foldl (grant_one_channel env now uid) acc)).1.deactivated = acc.1.deactivated := by
  induction l with
  | nil => intro acc; exact ⟨rfl, rfl, rfl⟩
  | cons a t ih =>
    intro acc
    rw [List.foldl_cons]
    obtain ⟨h1, h2, h3⟩ := ih (grant_one_channel env now uid acc a)
    obtain ⟨g1, g2, g3⟩ := grant_one_channel_stats env now uid acc a
    exact ⟨h1.trans g1, h2.trans g2, h3.trans g3⟩

end AvailFoldLemmas

section PerUserLemmas

open UserModel UserChannelModel UserModelExtended SubscriptionService

theorem has_access_update_active (s : Store) (v : Int) (b : Bool) (n u c : Int) :
    has_access (update_active s v b n) u c = has_access s u c := rfl

theorem eff_congr_get (s t : Store) (uid now : Int)
    (h : UserModel.get s uid = UserModel.get t uid) :
    get_effective_days s uid now = get_effective_days t uid now := by
  unfold get_effective_days
  rw [h]

/-- Characterization of get_available_channels for an existing active user. -/
theorem available_eq (s : Store) (now : Int) (catalog : List ChannelCfg)
    (uid : Int) (ur : User) (hget : UserModel.get s uid = some ur)
    (hactive : ur.isActive = true) :
    get_available_channels s now catalog uid =
      catalog.filter (fun cfg =>
        decide (cfg.daysRequired ≤ get_effective_days s uid now) &&
        !(has_access s uid cfg.id) && (cfg.id != 0)) := by
  unfold get_available_channels
  rw [hget]
  simp [hactive]

/-- Every available channel is a catalog entry the user qualifies for. -/
theorem mem_available (s : Store) (now : Int) (catalog : List ChannelCfg)
    (uid : Int) (cfg : ChannelCfg)
    (h : cfg ∈ get_available_channels s now catalog uid) :
    cfg ∈ catalog ∧ cfg.daysRequired ≤ get_effective_days s uid now := by
  cases hg : UserModel.get s uid with
  | none =>
    have hnil : get_available_channels s now catalog uid = [] := by
      unfold get_available_channels
      rw [hg]
    rw [hnil] at h
    cases h
  | some u =>
    by_cases ha : u.isActive = true
    · rw [available_eq s now catalog uid u hg ha] at h
      have hm := List.mem_filter.mp h
      refine ⟨hm.1, ?hd⟩
      exact of_decide_eq_true (Bool.and_eq_true_iff.mp (Bool.and_eq_true_iff.mp hm.2).1).1
    · have ha' : u.isActive = false := by simpa using ha
      have hnil : get_available_channels s now catalog uid = [] := by
        unfold get_available_channels
        rw [hg]
        simp [ha']
      rw [hnil] at h
      cases h

theorem process_one_user_get_other (env : Platform) (now mainId : Int)
    (catalog : List ChannelCfg) (acc : Stats × World) (v : User) (uid : Int)
    (h : uid ≠ v.userId) :
    UserModel.get (process_one_user env now mainId catalog acc v).2.store uid =
      UserModel.get acc.2.store uid := by
  unfold process_one_user
  by_cases hf : env.memberFault v.userId = true
  · rw [if_pos hf]
  · rw [if_neg hf]
    by_cases hm : (!(env.mainMember v.userId)) = true
    · rw [if_pos hm]
      rw [show (revoke_user_access env now v.userId
          (logCall (PCall.getChatMember mainId v.userId) acc.2)).2.store =
        update_active (delete_user_grants acc.2.store v.userId) v.userId false now from
        revoke_user_access_store env now v.userId _]
      rw [get_update_active_other _ uid v.userId false now h]
      exact get_congr_users _ _ uid (users_delete_user_grants acc.2.store v.userId)
    · rw [if_neg hm]
      exact get_congr_users _ _ uid
        (gfold_users env now v.userId _ _)

theorem process_one_user_has_other (env : Platform) (now mainId : Int)
    (catalog : List ChannelCfg) (acc : Stats × World) (v : User) (uid c' : Int)
    (h : uid ≠ v.userId) :
    has_access (process_one_user env now mainId catalog acc v).2.store uid c' =
      has_access acc.2.store uid c' := by
  unfold process_one_user
  by_cases hf : env.memberFault v.userId = true
  · rw [if_pos hf]
  · rw [if_neg hf]
    by_cases hm : (!(env.mainMember v.userId)) = true
    · rw [if_pos hm]
      rw [show (revoke_user_access env now v.userId
          (logCall (PCall.getChatMember mainId v.userId) acc.2)).2.store =
        update_active (delete_user_grants acc.2.store v.userId) v.userId false now from
        revoke_user_access_store env now v.userId _]
      rw [has_access_update_active]
      exact has_access_delete_user_grants_other acc.2.store v.userId uid c' h
    · rw [if_neg hm]
      exact gfold_other_user env now v.userId _ uid c' h _

theorem process_one_user_calls (env : Platform) (now mainId : Int)
    (catalog : List ChannelCfg) (acc : Stats × World) (v : User) :
    CallsExtend acc.2 (process_one_user env now mainId catalog acc v).2 := by
  unfold process_one_user
  by_cases hf : env.memberFault v.userId = true
  · rw [if_pos hf]; exact callsExtend_refl _
  · rw [if_neg hf]
    by_cases hm : (!(env.mainMember v.userId)) = true
    · rw [if_pos hm]
      exact callsExtend_trans (callsExtend_logCall _ _)
        (revoke_user_access_calls env now v.userId _)
    · rw [if_neg hm]
      exact callsExtend_trans (callsExtend_logCall _ _)
        (gfold_calls env now v.userId _ _)

theorem process_one_user_stats (env : Platform) (now mainId : Int)
    (catalog : List ChannelCfg) (acc : Stats × World) (v : User) :
    (process_one_user env now mainId catalog acc v).1.checked = acc.1.checked + 1 ∧
      (process_one_user env now mainId catalog acc v).1.errors =
        acc.1.errors + (if env.memberFault v.userId = true then 1 else 0) := by
  unfold process_one_user
  by_cases hf : env.memberFault v.userId = true
  · rw [if_pos hf]
    exact ⟨rfl, by rw [if_pos hf]⟩
  · rw [if_neg hf]
    by_cases hm : (!(env.mainMember v.userId)) = true
    · rw [if_pos hm]
      exact ⟨rfl, by rw [if_neg hf]; exact (Nat.add_zero acc.1.errors).symm⟩
    · rw [if_neg hm]
      obtain ⟨h1, h2, h3⟩ := gfold_stats env now v.userId
        (get_available_channels
          (logCall (PCall.getChatMember mainId v.userId) acc.2).store now catalog v.userId)
        ({ acc.1 with checked := acc.1.checked + 1 },
          logCall (PCall.getChatMember mainId v.userId) acc.2)
      have hite : (if env.memberFault v.userId = true then 1 else 0) = 0 := if_neg hf
      exact ⟨h1, h2.trans (by rw [hite]; exact (Nat.add_zero acc.1.errors).symm)⟩

theorem process_one_user_grants_self (env : Platform) (now mainId : Int)
    (catalog : List ChannelCfg) (acc : Stats × World) (v : User) (ur : User)
    (c : ChannelCfg)
    (hfault : env.memberFault v.userId = false)
    (hmem : env.mainMember v.userId = true)
    (hget : UserModel.get acc.2.store v.userId = some ur)
    (hactive : ur.isActive = true)
    (hc : c ∈ catalog) (h0 : c.id ≠ 0)
    (hi : env.inviteOk c.id v.userId = true)
    (hdays : c.daysRequired ≤ wholeDaysBetween ur.joinDate now + ur.bonusDays) :
    has_access (process_one_user env now mainId catalog acc v).2.store v.userId c.id = true := by
  unfold process_one_user
  rw [if_neg (show ¬ env.memberFault v.userId = true by rw [hfault]; exact Bool.false_ne_true)]
  rw [if_neg (show ¬ (!(env.mainMember v.userId)) = true by rw [hmem]; exact Bool.false_ne_true)]
  have heff : get_effective_days acc.2.store v.userId now =
      wholeDaysBetween ur.joinDate now + ur.bonusDays := by
    unfold get_effective_days
    rw [hget]
  by_cases hacc : has_access acc.2.store v.userId c.id = true
  · exact gfold_mono env now v.userId _ v.userId c.id _ hacc
  · have hacc' : has_access acc.2.store v.userId c.id = false := by
      simpa using hacc
    have hav : c ∈ get_available_channels
        (logCall (PCall.getChatMember mainId v.userId) acc.2).store now catalog v.userId := by
      rw [show (logCall (PCall.getChatMember mainId v.userId) acc.2).store = acc.2.store from rfl]
      rw [available_eq acc.2.store now catalog v.userId ur hget hactive]
      rw [List.mem_filter]
      refine ⟨hc, ?hp⟩
      rw [heff]
      rw [decide_eq_true hdays, hacc']
      rw [show (c.id != 0) = true from bne_iff_ne.mpr h0]
      rfl
    exact gfold_mem env now v.userId _ c hi _ hav

theorem process_one_user_preserves_false (env : Platform) (now mainId : Int)
    (catalog : List ChannelCfg) (acc : Stats × World) (v : User) (c' : Int)
    (hacc : has_access acc.2.store v.userId c' = false)
    (hq : ∀ cfg ∈ catalog, cfg.id = c' →
      ¬(cfg.daysRequired ≤ get_effective_days acc.2.store v.userId now)) :
    has_access (process_one_user env now mainId catalog acc v).2.store v.userId c' = false := by
  unfold process_one_user
  by_cases hf : env.memberFault v.userId = true
  · rw [if_pos hf]; exact hacc
  · rw [if_neg hf]
    by_cases hm : (!(env.mainMember v.userId)) = true
    · rw [if_pos hm]
      rw [show (revoke_user_access env now v.userId
          (logCall (PCall.getChatMember mainId v.userId) acc.2)).2.store =
        update_active (delete_user_grants acc.2.store v.userId) v.userId false now from
        revoke_user_access_store env now v.userId _]
      rw [has_access_update_active]
      exact has_access_delete_user_grants_self acc.2.store v.userId c'
    · rw [if_neg hm]
      rw [gfold_no_channel env now v.userId _ c' ?hno _]
      · exact hacc
      · intro cfg hcfg hEq
        obtain ⟨hcat, hle⟩ := mem_available _ now catalog v.userId cfg hcfg
        exact hq cfg hcat hEq hle

theorem process_one_user_invite_self (env : Platform) (now mainId : Int)
    (catalog : List ChannelCfg) (acc : Stats × World) (v : User) (ur : User)
    (c : ChannelCfg)
    (hfault : env.memberFault v.userId = false)
    (hmem : env.mainMember v.userId = true)
    (hget : UserModel.get acc.2.store v.userId = some ur)
    (hactive : ur.isActive = true)
    (hc : c ∈ catalog) (h0 : c.id ≠ 0)
    (hacc : has_access acc.2.store v.userId c.id = false)
    (hdays : c.daysRequired ≤ wholeDaysBetween ur.joinDate now + ur.bonusDays) :
    PCall.createInvite c.id v.userId ∈
      (process_one_user env now mainId catalog acc v).2.calls := by
  unfold process_one_user
  rw [if_neg (show ¬ env.memberFault v.userId = true by rw [hfault]; exact Bool.false_ne_true)]
  rw [if_neg (show ¬ (!(env.mainMember v.userId)) = true by rw [hmem]; exact Bool.false_ne_true)]
  have heff : get_effective_days acc.2.store v.userId now =
      wholeDaysBetween ur.joinDate now + ur.bonusDays := by
    unfold get_effective_days
    rw [hget]
  have hav : c ∈ get_available_channels
      (logCall (PCall.getChatMember mainId v.userId) acc.2).store now catalog v.userId := by
    rw [show (logCall (PCall.getChatMember mainId v.userId) acc.2).store = acc.2.store from rfl]
    rw [available_eq acc.2.store now catalog v.userId ur hget hactive]
    rw [List.mem_filter]
    refine ⟨hc, ?hp⟩
    rw [heff]
    rw [decide_eq_true hdays, hacc]
    rw [show (c.id != 0) = true from bne_iff_ne.mpr h0]
    rfl
  exact gfold_invite_mem env now v.userId _ c _ hav hacc

end PerUserLemmas

section UserFoldLemmas

open UserModel UserChannelModel UserModelExtended SubscriptionService

theorem ufold_frame_get (env : Platform) (now mainId : Int)
    (catalog : List ChannelCfg) (l : List User) (uid : Int)
    (h : ∀ x ∈ l, x.userId ≠ uid) :
    ∀ acc : Stats × World,
      UserModel.get ((l.foldl (process_one_user env now mainId catalog) acc)).2.store uid =
        UserModel.get acc.2.store uid := by
  induction l with
  | nil => intro acc; rfl
  | cons a t ih =>
    intro acc
    rw [List.foldl_cons,
      ih (fun x hx => h x (List.mem_cons_of_mem a hx)),
      process_one_user_get_other env now mainId catalog acc a uid
        (fun hEq => h a (List.mem_cons_self a t) hEq.symm)]

theorem ufold_frame_has (env : Platform) (now mainId : Int)
    (catalog : List ChannelCfg) (l : List User) (uid c' : Int)
    (h : ∀ x ∈ l, x.userId ≠ uid) :
    ∀ acc : Stats × World,
      has_access ((l.foldl (process_one_user env now mainId catalog) acc)).2.store uid c' =
        has_access acc.2.store uid c' := by
  induction l with
  | nil => intro acc; rfl
  | cons a t ih =>
    intro acc
    rw [List.foldl_cons,
      ih (fun x hx => h x (List.mem_cons_of_mem a hx)),
      process_one_user_has_other env now mainId catalog acc a uid c'
        (fun hEq => h a (List.mem_cons_self a t) hEq.symm)]

theorem ufold_calls (env : Platform) (now mainId : Int)
    (catalog : List ChannelCfg) (l : List User) :
    ∀ acc : Stats × World,
      CallsExtend acc.2 ((l.foldl (process_one_user env now mainId catalog) acc)).2 := by
  induction l with
  | nil => intro acc; exact callsExtend_refl _
  | cons a t ih =>
    intro acc
    rw [List.foldl_cons]
    exact callsExtend_trans (process_one_user_calls env now mainId catalog acc a) (ih _)

theorem ufold_grant (env : Platform) (now mainId : Int)
    (catalog : List ChannelCfg) (c : ChannelCfg) (hc : c ∈ catalog)
    (h0 : c.id ≠ 0) (l : List User) :
    ∀ (acc : Stats × World) (uid : Int) (ur : User),
      (l.map (fun x => x.userId)).Nodup →
      (∃ v ∈ l, v.userId = uid) →
      env.memberFault uid = false → env.mainMember uid = true →
      env.inviteOk c.id uid = true →
      UserModel.get acc.2.store uid = some ur → ur.isActive = true →
      c.daysRequired ≤ wholeDaysBetween ur.joinDate now + ur.bonusDays →
      has_access ((l.foldl (process_one_user env now mainId catalog) acc)).2.store uid c.id = true := by
  induction l with
  | nil =>
    intro acc uid ur _ hex
    obtain ⟨v, hv, _⟩ := hex
    cases hv
  | cons a t ih =>
    intro acc uid ur hnodup hex hfault hmem hi hget hactive hdays
    rw [List.foldl_cons]
    rw [List.map_cons] at hnodup
    have hnodup' := List.nodup_cons.mp hnodup
    by_cases ha : a.userId = uid
    · have hstep :
          has_access (process_one_user env now mainId catalog acc a).2.store uid c.id = true := by
        have := process_one_user_grants_self env now mainId catalog acc a ur c
          (by rw [ha]; exact hfault) (by rw [ha]; exact hmem)
          (by rw [ha]; exact hget) hactive hc h0 (by rw [ha]; exact hi)
          hdays
        rw [ha] at this
        exact this
      have hframe : ∀ x ∈ t, x.userId ≠ uid := by
        intro x hx hEq
        exact hnodup'.1 (by rw [ha, ← hEq]; exact List.mem_map_of_mem _ hx)
      rw [ufold_frame_has env now mainId catalog t uid c.id hframe _]
      exact hstep
    · obtain ⟨v, hv, hvid⟩ := hex
      have hvt : v ∈ t := by
        rcases List.mem_cons.mp hv with h1 | h1
        · exact absurd (h1 ▸ hvid) ha
        · exact h1
      apply ih _ uid ur hnodup'.2 ⟨v, hvt, hvid⟩ hfault hmem hi
      · rw [process_one_user_get_other env now mainId catalog acc a uid
          (fun hEq => ha hEq.symm)]
        exact hget
      · exact hactive
      · exact hdays

theorem ufold_false (env : Platform) (now mainId : Int)
    (catalog : List ChannelCfg) (c' : Int) (l : List User) :
    ∀ (acc : Stats × World) (uid : Int),
      (l.map (fun x => x.userId)).Nodup →
      has_access acc.2.store uid c' = false →
      (∀ cfg ∈ catalog, cfg.id = c' →
        ¬(cfg.daysRequired ≤ get_effective_days acc.2.store uid now)) →
      has_access ((l.foldl (process_one_user env now mainId catalog) acc)).2.store uid c' = false := by
  induction l with
  | nil => intro acc uid _ hacc _; exact hacc
  | cons a t ih =>
    intro acc uid hnodup hacc hq
    rw [List.foldl_cons]
    rw [List.map_cons] at hnodup
    have hnodup' := List.nodup_cons.mp hnodup
    by_cases ha : a.userId = uid
    · have hstep :
          has_access (process_one_user env now mainId catalog acc a).2.store uid c' = false := by
        have := process_one_user_preserves_false env now mainId catalog acc a c'
          (by rw [ha]; exact hacc)
          (by
            intro cfg hcfg hEq
            rw [ha]
            exact hq cfg hcfg hEq)
        rw [ha] at this
        exact this
      have hframe : ∀ x ∈ t, x.userId ≠ uid := by
        intro x hx hEq
        exact hnodup'.1 (by rw [ha, ← hEq]; exact List.mem_map_of_mem _ hx)
      rw [ufold_frame_has env now mainId catalog t uid c' hframe _]
      exact hstep
    · have hgetp := process_one_user_get_other env now mainId catalog acc a uid
        (fun hEq => ha hEq.symm)
      apply ih _ uid hnodup'.2
      · rw [process_one_user_has_other env now mainId catalog acc a uid c'
          (fun hEq => ha hEq.symm)]
        exact hacc
      · intro cfg hcfg hEq
        rw [eff_congr_get _ acc.2.store uid now hgetp]
        exact hq cfg hcfg hEq

theorem ufold_counting (env : Platform) (now mainId : Int)
    (catalog : List ChannelCfg) (l : List User) :
    ∀ acc : Stats × World,
      ((l.foldl (process_one_user env now mainId catalog) acc)).1.checked =
        acc.1.checked + l.length ∧
      ((l.foldl (process_one_user env now mainId catalog) acc)).1.errors =
        acc.1.errors + (l.filter (fun x => env.memberFault x.userId)).length := by
  induction l with
  | nil => intro acc; exact ⟨by simp, by simp⟩
  | cons a t ih =>
    intro acc
    rw [List.foldl_cons]
    obtain ⟨ih1, ih2⟩ := ih (process_one_user env now mainId catalog acc a)
    obtain ⟨s1, s2⟩ := process_one_user_stats env now mainId catalog acc a
    constructor
    · rw [ih1, s1, List.length_cons]
      omega
    · rw [ih2, s2]
      by_cases hf : env.memberFault a.userId = true
      · rw [List.filter_cons_of_pos (by simpa using hf), if_pos hf, List.length_cons]
        omega
      · rw [List.filter_cons_of_neg (by simpa using hf), if_neg hf]
        omega

theorem check_user_channels_count (env : Platform) (now : Int) (cfg : ChannelCfg)
    (acc : RevokeStats × World) (e : Int × Option Nat) :
    (check_user_for_channel env now cfg acc e).1.checked_channels =
      acc.1.checked_channels := by
  unfold check_user_for_channel
  by_cases hf : env.effFault cfg.id e.1 = true
  · rw [if_pos hf]
  · rw [if_neg hf]
    by_cases he : get_effective_days acc.2.store e.1 now < cfg.daysRequired
    · rw [if_pos he]
    · rw [if_neg he]

theorem downgrade_channels_count (env : Platform) (now : Int)
    (catalog : List ChannelCfg) :
    ∀ acc : RevokeStats × World,
      ((catalog.foldl (check_channel env now) acc)).1.checked_channels =
        acc.1.checked_channels +
          (catalog.filter (fun cfg => !(cfg.id == 0))).length := by
  induction catalog with
  | nil => intro acc; simp
  | cons cfg t ih =>
    intro acc
    rw [List.foldl_cons]
    by_cases h0 : (cfg.id == 0) = true
    · rw [List.filter_cons_of_neg (by simpa using h0)]
      rw [show check_channel env now acc cfg = acc from by
        unfold check_channel
        rw [if_pos h0]]
      exact ih acc
    · rw [List.filter_cons_of_pos (by simpa using h0), List.length_cons]
      have hstep : (check_channel env now acc cfg).1.checked_channels =
          acc.1.checked_channels + 1 := by
        unfold check_channel
        rw [if_neg h0]
        have hfold := foldl_preserve
          (fun b : RevokeStats × World =>
            b.1.checked_channels = acc.1.checked_channels + 1)
          (check_user_for_channel env now cfg)
          (get_users_with_channel_access acc.2.store cfg.id)
          (fun b a hb => by
            show (check_user_for_channel env now cfg b a).1.checked_channels =
              acc.1.checked_channels + 1
            rw [check_user_channels_count]
            exact hb)
          ({ acc.1 with checked_channels := acc.1.checked_channels + 1 }, acc.2) rfl
        exact hfold
      rw [ih _, hstep]
      omega

end UserFoldLemmas

section SweepLemmas

open UserModel UserChannelModel UserModelExtended SubscriptionService

theorem ufold_invite (env : Platform) (now mainId : Int)
    (catalog : List ChannelCfg) (c : ChannelCfg) (hc : c ∈ catalog)
    (h0 : c.id ≠ 0) (l : List User) :
    ∀ (acc : Stats × World) (uid : Int) (ur : User),
      (l.map (fun x => x.userId)).Nodup →
      (∃ v ∈ l, v.userId = uid) →
      env.memberFault uid = false → env.mainMember uid = true →
      UserModel.get acc.2.store uid = some ur → ur.isActive = true →
      has_access acc.2.store uid c.id = false →
      c.daysRequired ≤ wholeDaysBetween ur.joinDate now + ur.bonusDays →
      PCall.createInvite c.id uid ∈
        ((l.foldl (process_one_user env now mainId catalog) acc)).2.calls := by
  induction l with
  | nil =>
    intro acc uid ur _ hex
    obtain ⟨v, hv, _⟩ := hex
    cases hv
  | cons a t ih =>
    intro acc uid ur hnodup hex hfault hmem hget hactive hacc hdays
    rw [List.foldl_cons]
    rw [List.map_cons] at hnodup
    have hnodup' := List.nodup_cons.mp hnodup
    by_cases ha : a.userId = uid
    · have hstep : PCall.createInvite c.id uid ∈
          (process_one_user env now mainId catalog acc a).2.calls := by
        have := process_one_user_invite_self env now mainId catalog acc a ur c
          (by rw [ha]; exact hfault) (by rw [ha]; exact hmem)
          (by rw [ha]; exact hget) hactive hc h0
          (by rw [ha]; exact hacc) hdays
        rw [ha] at this
        exact this
      exact callsExtend_mem (ufold_calls env now mainId catalog t _) _ hstep
    · obtain ⟨v, hv, hvid⟩ := hex
      have hvt : v ∈ t := by
        rcases List.mem_cons.mp hv with h1 | h1
        · exact absurd (h1 ▸ hvid) ha
        · exact h1
      apply ih _ uid ur hnodup'.2 ⟨v, hvt, hvid⟩ hfault hmem
      · rw [process_one_user_get_other env now mainId catalog acc a uid
          (fun hEq => ha hEq.symm)]
        exact hget
      · exact hactive
      · rw [process_one_user_has_other env now mainId catalog acc a uid c.id
          (fun hEq => ha hEq.symm)]
        exact hacc
      · exact hdays

/-- After one full sweep, an active primary-channel member whose effective
days reach a configured channel's requirement holds the grant, provided the
sweep's platform calls for this user succeed. -/
theorem sweep_grants (env : Platform) (now mainId : Int)
    (catalog : List ChannelCfg) (w : World) (uid : Int) (ur : User)
    (c : ChannelCfg)
    (hu : UsersUnique w.store)
    (hget : UserModel.get w.store uid = some ur)
    (hactive : ur.isActive = true)
    (hfault : env.memberFault uid = false)
    (hmem : env.mainMember uid = true)
    (hc : c ∈ catalog) (h0 : c.id ≠ 0)
    (hi : env.inviteOk c.id uid = true)
    (hdays : c.daysRequired ≤ get_effective_days w.store uid now) :
    has_access (process_daily_check env now mainId catalog w).2.store uid c.id = true := by
  have husers := downgrade_users env now catalog w
  have hget' : UserModel.get
      (check_and_revoke_unqualified_access env now catalog w).2.store uid = some ur := by
    rw [get_congr_users _ w.store uid husers]
    exact hget
  have hget0 : w.store.users.find? (fun u => u.userId == uid) = some ur := hget
  have hbeq := List.find?_some hget0
  have hurid : ur.userId = uid := eq_of_beq hbeq
  have hmemu : ur ∈ w.store.users := List.mem_of_find?_eq_some hget0
  have hactive_mem : ur ∈ UserModel.get_active_users
      (check_and_revoke_unqualified_access env now catalog w).2.store := by
    unfold UserModel.get_active_users
    rw [husers]
    exact List.mem_filter.mpr ⟨hmemu, hactive⟩
  have hnodup : ((UserModel.get_active_users
      (check_and_revoke_unqualified_access env now catalog w).2.store).map
        (fun x => x.userId)).Nodup := by
    unfold UserModel.get_active_users
    rw [husers]
    exact List.Nodup.sublist (List.Sublist.map _ (List.filter_sublist _)) hu
  have heffw : get_effective_days w.store uid now =
      wholeDaysBetween ur.joinDate now + ur.bonusDays := by
    unfold get_effective_days
    rw [hget]
  show has_access
    ((UserModel.get_active_users
        (check_and_revoke_unqualified_access env now catalog w).2.store).foldl
      (process_one_user env now mainId catalog)
      ({ checked := 0, new_access_granted := 0, deactivated := 0,
         unqualified_revoked :=
           (check_and_revoke_unqualified_access env now catalog w).1.revoked_access,
         errors := (check_and_revoke_unqualified_access env now catalog w).1.errors },
       (check_and_revoke_unqualified_access env now catalog w).2)).2.store uid c.id = true
  exact ufold_grant env now mainId catalog c hc h0 _ _ uid ur hnodup
    ⟨ur, hactive_mem, hurid⟩ hfault hmem hi hget' hactive (heffw ▸ hdays)

/-- After one full sweep, a user whose effective days are below a configured
channel's requirement does not hold that channel's grant. -/
theorem sweep_removes (env : Platform) (now mainId : Int)
    (catalog : List ChannelCfg) (w : World) (uid : Int) (ur : User)
    (c : ChannelCfg)
    (hu : UsersUnique w.store)
    (hcat : (catalog.map (fun x => x.id)).Nodup)
    (hget : UserModel.get w.store uid = some ur)
    (hc : c ∈ catalog) (h0 : c.id ≠ 0)
    (hf : env.effFault c.id uid = false)
    (he : get_effective_days w.store uid now < c.daysRequired) :
    has_access (process_daily_check env now mainId catalog w).2.store uid c.id = false := by
  have husers := downgrade_users env now catalog w
  have hdown : has_access
      (check_and_revoke_unqualified_access env now catalog w).2.store uid c.id = false := by
    by_cases hacc : has_access w.store uid c.id = true
    · exact downgrade_removes env now catalog w uid c hc hcat h0 hacc
        (by rw [hget]; rfl) hf he
    · exact downgrade_mono_false env now catalog w uid c.id (by simpa using hacc)
  have hnodup : ((UserModel.get_active_users
      (check_and_revoke_unqualified_access env now catalog w).2.store).map
        (fun x => x.userId)).Nodup := by
    unfold UserModel.get_active_users
    rw [husers]
    exact List.Nodup.sublist (List.Sublist.map _ (List.filter_sublist _)) hu
  have hq : ∀ cfg ∈ catalog, cfg.id = c.id →
      ¬(cfg.daysRequired ≤ get_effective_days
        (check_and_revoke_unqualified_access env now catalog w).2.store uid now) := by
    intro cfg hcfg hEq
    have hcfg_eq : cfg = c :=
      eq_of_mem_nodup_map (fun x => x.id) catalog hcat cfg c hcfg hc hEq
    subst hcfg_eq
    rw [eff_congr_users _ w.store uid now husers]
    exact not_le.mpr he
  show has_access
    ((UserModel.get_active_users
        (check_and_revoke_unqualified_access env now catalog w).2.store).foldl
      (process_one_user env now mainId catalog)
      ({ checked := 0, new_access_granted := 0, deactivated := 0,
         unqualified_revoked :=
           (check_and_revoke_unqualified_access env now catalog w).1.revoked_access,
         errors := (check_and_revoke_unqualified_access env now catalog w).1.errors },
       (check_and_revoke_unqualified_access env now catalog w).2)).2.store uid c.id = false
  exact ufold_false env now mainId catalog c.id _ _ uid hnodup hdown hq

/-- During the sweep, the invite-creation platform call is made for a banned
or unbanned user alike; nothing inspects is_banned on the way. -/
theorem sweep_invite_call (env : Platform) (now mainId : Int)
    (catalog : List ChannelCfg) (w : World) (uid : Int) (ur : User)
    (c : ChannelCfg)
    (hu : UsersUnique w.store)
    (hget : UserModel.get w.store uid = some ur)
    (hactive : ur.isActive = true)
    (hfault : env.memberFault uid = false)
    (hmem : env.mainMember uid = true)
    (hc : c ∈ catalog) (h0 : c.id ≠ 0)
    (hacc : has_access w.store uid c.id = false)
    (hdays : c.daysRequired ≤ get_effective_days w.store uid now) :
    PCall.createInvite c.id uid ∈
      (process_daily_check env now mainId catalog w).2.calls := by
  have husers := downgrade_users env now catalog w
  have hget' : UserModel.get
      (check_and_revoke_unqualified_access env now catalog w).2.store uid = some ur := by
    rw [get_congr_users _ w.store uid husers]
    exact hget
  have hget0 : w.store.users.find? (fun u => u.userId == uid) = some ur := hget
  have hbeq := List.find?_some hget0
  have hurid : ur.userId = uid := eq_of_beq hbeq
  have hmemu : ur ∈ w.store.users := List.mem_of_find?_eq_some hget0
  have hactive_mem : ur ∈ UserModel.get_active_users
      (check_and_revoke_unqualified_access env now catalog w).2.store := by
    unfold UserModel.get_active_users
    rw [husers]
    exact List.mem_filter.mpr ⟨hmemu, hactive⟩
  have hnodup : ((UserModel.get_active_users
      (check_and_revoke_unqualified_access env now catalog w).2.store).map
        (fun x => x.userId)).Nodup := by
    unfold UserModel.get_active_users
    rw [husers]
    exact List.Nodup.sublist (List.Sublist.map _ (List.filter_sublist _)) hu
  have heffw : get_effective_days w.store uid now =
      wholeDaysBetween ur.joinDate now + ur.bonusDays := by
    unfold get_effective_days
    rw [hget]
  have hdown : has_access
      (check_and_revoke_unqualified_access env now catalog w).2.store uid c.id = false :=
    downgrade_mono_false env now catalog w uid c.id hacc
  show PCall.createInvite c.id uid ∈
    ((UserModel.get_active_users
        (check_and_revoke_unqualified_access env now catalog w).2.store).foldl
      (process_one_user env now mainId catalog)
      ({ checked := 0, new_access_granted := 0, deactivated := 0,
         unqualified_revoked :=
           (check_and_revoke_unqualified_access env now catalog w).1.revoked_access,
         errors := (check_and_revoke_unqualified_access env now catalog w).1.errors },
       (check_and_revoke_unqualified_access env now catalog w).2)).2.calls
  exact ufold_invite env now mainId catalog c hc h0 _ _ uid ur hnodup
    ⟨ur, hactive_mem, hurid⟩ hfault hmem hget' hactive hdown (heffw ▸ hdays)

/-- The sweep's statistics: every active user is checked, and the error tally
is the downgrade pass's error count plus the number of users whose
processing raised. -/
theorem sweep_counting (env : Platform) (now mainId : Int)
    (catalog : List ChannelCfg) (w : World) :
    (process_daily_check env now mainId catalog w).1.checked =
      (UserModel.get_active_users
        (check_and_revoke_unqualified_access env now catalog w).2.store).length ∧
    (process_daily_check env now mainId catalog w).1.errors =
      (check_and_revoke_unqualified_access env now catalog w).1.errors +
        ((UserModel.get_active_users
          (check_and_revoke_unqualified_access env now catalog w).2.store).filter
            (fun x => env.memberFault x.userId)).length := by
  obtain ⟨h1, h2⟩ := ufold_counting env now mainId catalog
    (UserModel.get_active_users
      (check_and_revoke_unqualified_access env now catalog w).2.store)
    ({ checked := 0, new_access_granted := 0, deactivated := 0,
       unqualified_revoked :=
         (check_and_revoke_unqualified_access env now catalog w).1.revoked_access,
       errors := (check_and_revoke_unqualified_access env now catalog w).1.errors },
     (check_and_revoke_unqualified_access env now catalog w).2)
  constructor
  · exact h1.trans (Nat.zero_add _)
  · exact h2

end SweepLemmas

section UniquenessLemmas

open UserModel UserChannelModel UserModelExtended SubscriptionService AdminHandlers

/-- Pointwise equal functions give equal `List.map`. -/
theorem map_ext {α β : Type} (l : List α) (f g : α → β)
    (h : ∀ a ∈ l, f a = g a) : l.map f = l.map g := by
  induction l with
  | nil => rfl
  | cons a t ih =>
    rw [List.map_cons, List.map_cons, h a (List.mem_cons_self a t),
      ih (fun x hx => h x (List.mem_cons_of_mem a hx))]

theorem gu_filter (s : Store) (p : Grant → Bool) (h : GrantsUnique s) :
    GrantsUnique { s with grants := s.grants.filter p } := by
  unfold GrantsUnique at h ⊢
  exact List.Nodup.sublist (List.Sublist.map _ (List.filter_sublist _)) h

theorem gu_grant_access (s : Store) (u c n : Int) (m : Option Nat)
    (h : GrantsUnique s) : GrantsUnique (grant_access s u c n m) := by
  unfold grant_access
  by_cases hacc : has_access s u c = true
  · rw [if_pos hacc]; exact h
  · rw [if_neg hacc]
    have hacc' : has_access s u c = false := by simpa using hacc
    have hany : s.grants.any (fun g => g.userId == u && g.channelId == c) = false := hacc'
    unfold GrantsUnique at h ⊢
    rw [List.map_append]
    rw [List.nodup_append]
    refine ⟨h, List.nodup_singleton _, ?hd⟩
    intro k hk hk2
    have hkuc : k = (u, c) := by simpa using hk2
    obtain ⟨g, hg, hkey⟩ := List.mem_map.mp hk
    have hfalse := List.any_eq_false.mp hany g hg
    rw [hkuc] at hkey
    have h1 : g.userId = u := congrArg Prod.fst hkey
    have h2 : g.channelId = c := congrArg Prod.snd hkey
    apply hfalse
    rw [h1, h2]
    simp

theorem gu_update_message_id (s : Store) (a b : Int) (m : Nat)
    (h : GrantsUnique s) : GrantsUnique (update_message_id s a b m) := by
  have hp : ∀ g ∈ s.grants,
      ((fun g : Grant => (g.userId, g.channelId)) ∘ (fun g : Grant =>
        if g.userId == a && g.channelId == b then { g with messageId := some m }
        else g)) g = (fun g : Grant => (g.userId, g.channelId)) g := by
    intro g _
    by_cases hg : (g.userId == a && g.channelId == b) = true <;>
      simp [Function.comp, hg]
  unfold GrantsUnique at h ⊢
  show ((s.grants.map (fun g =>
    if g.userId == a && g.channelId == b then { g with messageId := some m }
    else g)).map (fun g => (g.userId, g.channelId))).Nodup
  rw [List.map_map, map_ext s.grants _ _ hp]
  exact h

theorem gu_update_active (s : Store) (v : Int) (b : Bool) (n : Int)
    (h : GrantsUnique s) : GrantsUnique (update_active s v b n) := h

theorem gu_create (s : Store) (uid : Int) (un fn : Option String) (n : Int)
    (h : GrantsUnique s) : GrantsUnique (UserModel.create s uid un fn n) := by
  unfold UserModel.create
  split
  · exact h
  · exact h

theorem gu_grant_channel_access (env : Platform) (now u c : Int) (w : World)
    (h : GrantsUnique w.store) :
    GrantsUnique (grant_channel_access env now u c w).2.store := by
  unfold grant_channel_access
  by_cases hacc : has_access w.store u c = true
  · rw [if_pos hacc]; exact h
  · rw [if_neg hacc]
    by_cases hi : env.inviteOk c u = true
    · rw [if_pos hi]
      exact gu_grant_access _ _ _ _ _ h
    · rw [if_neg hi]; exact h

theorem gu_revoke_unqualified (env : Platform) (u c : Int) (w : World)
    (h : GrantsUnique w.store) :
    GrantsUnique (revoke_unqualified_channel_access env u c w).2.store := by
  rw [revoke_unqualified_store]
  exact gu_filter _ _ h

theorem gu_revoke_user_access (env : Platform) (now u : Int) (w : World)
    (h : GrantsUnique w.store) :
    GrantsUnique (revoke_user_access env now u w).2.store := by
  rw [revoke_user_access_store]
  exact gu_update_active _ _ _ _ (gu_filter _ _ h)

theorem gu_check_user (env : Platform) (now : Int) (cfg : ChannelCfg)
    (acc : RevokeStats × World) (e : Int × Option Nat)
    (h : GrantsUnique acc.2.store) :
    GrantsUnique (check_user_for_channel env now cfg acc e).2.store := by
  unfold check_user_for_channel
  by_cases hf : env.effFault cfg.id e.1 = true
  · rw [if_pos hf]; exact h
  · rw [if_neg hf]
    by_cases he : get_effective_days acc.2.store e.1 now < cfg.daysRequired
    · rw [if_pos he]
      have hst : ∀ r : Option Nat × World, GrantsUnique r.2.store →
          GrantsUnique (match r.1 with
            | some m => logCall (PCall.deleteMessage e.1 m) r.2
            | none => r.2).store := by
        intro r hr
        cases r.1 <;> exact hr
      exact hst _ (by
        rw [revoke_unqualified_store]
        exact gu_filter _ _ h)
    · rw [if_neg he]; exact h

theorem gu_check_channel (env : Platform) (now : Int)
    (acc : RevokeStats × World) (cfg : ChannelCfg)
    (h : GrantsUnique acc.2.store) :
    GrantsUnique (check_channel env now acc cfg).2.store := by
  unfold check_channel
  by_cases h0 : (cfg.id == 0) = true
  · rw [if_pos h0]; exact h
  · rw [if_neg h0]
    exact foldl_preserve (fun b : RevokeStats × World => GrantsUnique b.2.store)
      (check_user_for_channel env now cfg) _
      (fun b a hb => gu_check_user env now cfg b a hb) _ h

theorem gu_downgrade (env : Platform) (now : Int) (catalog : List ChannelCfg)
    (w : World) (h : GrantsUnique w.store) :
    GrantsUnique (check_and_revoke_unqualified_access env now catalog w).2.store := by
  unfold check_and_revoke_unqualified_access
  exact foldl_preserve (fun b : RevokeStats × World => GrantsUnique b.2.store)
    (check_channel env now) catalog
    (fun b a hb => gu_check_channel env now b a hb) _ h

theorem gu_grant_one_channel (env : Platform) (now uid : Int)
    (acc : Stats × World) (cfg : ChannelCfg) (h : GrantsUnique acc.2.store) :
    GrantsUnique (grant_one_channel env now uid acc cfg).2.store := by
  unfold grant_one_channel
  have hst : ∀ r : Option String × World, GrantsUnique r.2.store →
      GrantsUnique (match r.1 with
        | none => (acc.1, r.2)
        | some _ =>
          let w := logCall (PCall.sendMessage uid) r.2
          if env.sendOk uid then
            let mid := w.msgCtr
            let w' : World := { store := update_message_id w.store uid cfg.id mid,
                                calls := w.calls, msgCtr := w.msgCtr + 1 }
            ({ acc.1 with new_access_granted := acc.1.new_access_granted + 1 }, w')
          else (acc.1, w)).2.store := by
    intro r hr
    cases r.1 with
    | none => exact hr
    | some l =>
      by_cases hs : env.sendOk uid = true
      · rw [if_pos hs]
        exact gu_update_message_id _ _ _ _ hr
      · rw [if_neg hs]
        exact hr
  exact hst _ (gu_grant_channel_access env now uid cfg.id acc.2 h)

theorem gu_process_one_user (env : Platform) (now mainId : Int)
    (catalog : List ChannelCfg) (acc : Stats × World) (v : User)
    (h : GrantsUnique acc.2.store) :
    GrantsUnique (process_one_user env now mainId catalog acc v).2.store := by
  unfold process_one_user
  by_cases hf : env.memberFault v.userId = true
  · rw [if_pos hf]; exact h
  · rw [if_neg hf]
    by_cases hm : (!(env.mainMember v.userId)) = true
    · rw [if_pos hm]
      exact gu_revoke_user_access env now v.userId _ h
    · rw [if_neg hm]
      exact foldl_preserve (fun b : Stats × World => GrantsUnique b.2.store)
        (grant_one_channel env now v.userId) _
        (fun b a hb => gu_grant_one_channel env now v.userId b a hb) _ h

theorem gu_sweep (env : Platform) (now mainId : Int)
    (catalog : List ChannelCfg) (w : World) (h : GrantsUnique w.store) :
    GrantsUnique (process_daily_check env now mainId catalog w).2.store := by
  show GrantsUnique
    ((UserModel.get_active_users
        (check_and_revoke_unqualified_access env now catalog w).2.store).foldl
      (process_one_user env now mainId catalog)
      ({ checked := 0, new_access_granted := 0, deactivated := 0,
         unqualified_revoked :=
           (check_and_revoke_unqualified_access env now catalog w).1.revoked_access,
         errors := (check_and_revoke_unqualified_access env now catalog w).1.errors },
       (check_and_revoke_unqualified_access env now catalog w).2)).2.store
  exact foldl_preserve (fun b : Stats × World => GrantsUnique b.2.store)
    (process_one_user env now mainId catalog) _
    (fun b a hb => gu_process_one_user env now mainId catalog b a hb) _
    (gu_downgrade env now catalog w h)

theorem gu_register (s : Store) (now uid : Int) (un fn : Option String)
    (h : GrantsUnique s) : GrantsUnique (register_user s now uid un fn).2 := by
  unfold register_user
  cases UserModel.get s uid with
  | none => exact gu_create s uid un fn now h
  | some u =>
    show GrantsUnique (if (!u.isActive) = true then
      (RegStatus.reactivated, update_active s uid true now)
      else (RegStatus.existing, s)).2
    by_cases ha : (!u.isActive) = true
    · rw [if_pos ha]
      exact gu_update_active s uid true now h
    · rw [if_neg ha]
      exact h

theorem gu_manual_grant (env : Platform) (now uid cid : Int) (w : World)
    (h : GrantsUnique w.store) :
    GrantsUnique (process_manual_grant env now uid cid w).2.store := by
  unfold process_manual_grant
  cases UserModel.get w.store uid with
  | none => exact h
  | some u =>
    cases ChannelModel.get w.store cid with
    | none => exact h
    | some ch =>
      by_cases hacc : has_access w.store uid cid = true
      · rw [if_pos hacc]; exact h
      · rw [if_neg hacc]
        have hst : ∀ r : Option String × World, GrantsUnique r.2.store →
            GrantsUnique (match r.1 with
              | some l =>
                let w1 := logCall (PCall.sendMessage uid) r.2
                if env.sendOk uid then
                  let mid := w1.msgCtr
                  (some l, ({ store := update_message_id w1.store uid cid mid,
                              calls := w1.calls, msgCtr := w1.msgCtr + 1 } : World))
                else (some l, w1)
              | none => (none, r.2)).2.store := by
          intro r hr
          cases r.1 with
          | none => exact hr
          | some l =>
            cases hs : env.sendOk uid with
            | true => exact gu_update_message_id _ _ _ _ hr
            | false => exact hr
        exact hst _ (gu_grant_channel_access env now uid cid w h)

theorem gu_mass_grant_one (env : Platform) (now : Int)
    (catalog : List ChannelCfg) (acc : Nat × World) (u : User)
    (h : GrantsUnique acc.2.store) :
    GrantsUnique (mass_grant_one env now catalog acc u).2.store := by
  unfold mass_grant_one
  cases get_available_channels acc.2.store now catalog u.userId with
  | nil => exact h
  | cons cfg rest =>
    have hst : ∀ r : Option String × World, GrantsUnique r.2.store →
        GrantsUnique (match r.1 with
          | some _ =>
            let w := logCall (PCall.sendMessage u.userId) r.2
            if env.sendOk u.userId then
              let mid := w.msgCtr
              (acc.1 + 1, ({ store := update_message_id w.store u.userId cfg.id mid,
                             calls := w.calls, msgCtr := w.msgCtr + 1 } : World))
            else (acc.1, w)
          | none => (acc.1, r.2)).2.store := by
      intro r hr
      cases r.1 with
      | none => exact hr
      | some l =>
        cases hs : env.sendOk u.userId with
        | true => exact gu_update_message_id _ _ _ _ hr
        | false => exact hr
    exact hst _ (gu_grant_channel_access env now u.userId cfg.id acc.2 h)

theorem gu_mass_grant (env : Platform) (now : Int) (catalog : List ChannelCfg)
    (minD maxD : Int) (w : World) (h : GrantsUnique w.store) :
    GrantsUnique (process_mass_grant env now catalog minD maxD w).2.store := by
  unfold process_mass_grant
  exact foldl_preserve (fun b : Nat × World => GrantsUnique b.2.store)
    (mass_grant_one env now catalog) _
    (fun b a hb => gu_mass_grant_one env now catalog b a hb) _ h

end UniquenessLemmas

/-- One entitlement-mutating operation of the system, as invoked by the
handlers: registration, the Granter, the two Revokers, the sweep, and the
two administrative grant paths. -/
inductive Op where
  | register (uid : Int) (username firstName : Option String)
  | grant (uid cid : Int)
  | revokeAll (uid : Int)
  | revokeOne (uid cid : Int)
  | sweep
  | manualGrant (uid cid : Int)
  | massGrant (minDays maxDays : Int)

/-- Interpret one operation on the world. -/
def applyOp (env : Platform) (now mainId : Int) (catalog : List ChannelCfg)
    (w : World) (op : Op) : World :=
  match op with
  | Op.register uid un fn =>
    { w with store := (SubscriptionService.register_user w.store now uid un fn).2 }
  | Op.grant uid cid => (SubscriptionService.grant_channel_access env now uid cid w).2
  | Op.revokeAll uid => (SubscriptionService.revoke_user_access env now uid w).2
  | Op.revokeOne uid cid =>
    (SubscriptionService.revoke_unqualified_channel_access env uid cid w).2
  | Op.sweep => (SubscriptionService.process_daily_check env now mainId catalog w).2
  | Op.manualGrant uid cid => (AdminHandlers.process_manual_grant env now uid cid w).2
  | Op.massGrant minD maxD =>
    (AdminHandlers.process_mass_grant env now catalog minD maxD w).2

/-- Interpret a sequence of operations. -/
def applyOps (env : Platform) (now mainId : Int) (catalog : List ChannelCfg)
    (ops : List Op) (w : World) : World :=
  ops.foldl (applyOp env now mainId catalog) w

/-- Any single operation preserves the at-most-one-grant-per-pair invariant. -/
theorem gu_applyOp (env : Platform) (now mainId : Int)
    (catalog : List ChannelCfg) (w : World) (op : Op)
    (h : GrantsUnique w.store) :
    GrantsUnique (applyOp env now mainId catalog w op).store := by
  cases op with
  | register uid un fn => exact gu_register w.store now uid un fn h
  | grant uid cid => exact gu_grant_channel_access env now uid cid w h
  | revokeAll uid => exact gu_revoke_user_access env now uid w h
  | revokeOne uid cid => exact gu_revoke_unqualified env uid cid w h
  | sweep => exact gu_sweep env now mainId catalog w h
  | manualGrant uid cid => exact gu_manual_grant env now uid cid w h
  | massGrant minD maxD => exact gu_mass_grant env now catalog minD maxD w h

section DoubleGrantLemmas

open UserChannelModel SubscriptionService

theorem grantCount_zero_of_no_access (s : Store) (u c : Int)
    (h : has_access s u c = false) : grantCount s u c = 0 := by
  unfold grantCount
  have hany : s.grants.any (fun g => g.userId == u && g.channelId == c) = false := h
  have hnil : s.grants.filter (fun g => g.userId == u && g.channelId == c) = [] := by
    rw [List.filter_eq_nil_iff]
    intro g hg
    exact List.any_eq_false.mp hany g hg
  rw [hnil]
  rfl

theorem grantCount_after_success (s : Store) (u c n : Int) (m : Option Nat)
    (h : has_access s u c = false) :
    grantCount (grant_access s u c n m) u c = 1 := by
  unfold grant_access
  rw [if_neg (by rw [h]; exact Bool.false_ne_true)]
  unfold grantCount
  show ((s.grants ++ [({ userId := u, channelId := c, grantedAt := n, messageId := m } : Grant)]).filter (fun g => g.userId == u && g.channelId == c)).length = 1
  rw [List.filter_append]
  have hany : s.grants.any (fun g => g.userId == u && g.channelId == c) = false := h
  have hnil : s.grants.filter (fun g => g.userId == u && g.channelId == c) = [] := by
    rw [List.filter_eq_nil_iff]
    intro g hg
    exact List.any_eq_false.mp hany g hg
  rw [hnil]
  simp

/-- Calling grant twice in succession: the first call creates the grant and
exactly one invitation; the second is a no-op returning Declined and leaves
the world untouched. -/
theorem grant_twice (env env2 : Platform) (now now2 u c : Int) (w : World)
    (hacc : has_access w.store u c = false) (hi : env.inviteOk c u = true) :
    (grant_channel_access env now u c w).1.isSome = true ∧
    grant_channel_access env2 now2 u c (grant_channel_access env now u c w).2 =
      (none, (grant_channel_access env now u c w).2) ∧
    grantCount (grant_channel_access env now u c w).2.store u c = 1 ∧
    inviteCallCount (grant_channel_access env now u c w).2 u c =
      inviteCallCount w u c + 1 := by
  refine ⟨?h1, ?h2, ?h3, ?h4⟩
  case h1 =>
    rw [grant_channel_access_success env now u c w hacc hi]
    rfl
  case h2 =>
    exact grant_channel_access_noop env2 now2 u c _
      (grant_channel_access_has_self env now u c w hi)
  case h3 =>
    rw [grant_channel_access_success env now u c w hacc hi]
    exact grantCount_after_success w.store u c now none hacc
  case h4 =>
    rw [grant_channel_access_success env now u c w hacc hi]
    unfold inviteCallCount
    show ((w.calls ++ [PCall.createInvite c u]).filter
      (fun x => x == PCall.createInvite c u)).length =
      (w.calls.filter (fun x => x == PCall.createInvite c u)).length + 1
    rw [List.filter_append]
    simp

end DoubleGrantLemmas

section ClaimFixtures

/-- Platform oracle on which every external call succeeds and none raises. -/
def okPlatform : Platform :=
  { mainMember := fun _ => true, memberFault := fun _ => false,
    inviteOk := fun _ _ => true, sendOk := fun _ => true,
    effFault := fun _ _ => false }

/-- Platform oracle on which invite-link creation always fails. -/
def failPlatform : Platform :=
  { mainMember := fun _ => true, memberFault := fun _ => false,
    inviteOk := fun _ _ => false, sendOk := fun _ => true,
    effFault := fun _ _ => false }

/-- A user row with the display fields defaulted. -/
def sampleUser (uid joinDate : Int) (active : Bool) (bonus : Int)
    (banned : Bool) : User :=
  { userId := uid, username := none, firstName := none, joinDate := joinDate,
    isActive := active, lastCheck := none, notificationsEnabled := true,
    bonusDays := bonus, isBanned := banned, banReason := none }

def c1_store : Store :=
  { users := [sampleUser 1 0 false 7 false], channels := [], grants := [] }

def c2_store : Store :=
  { users := [sampleUser 1 0 true 0 false], channels := [], grants := [] }

def c2_catalog : List ChannelCfg := [{ id := 100, name := "A", daysRequired := 1 }]

def c2_world : World := { store := c2_store, calls := [], msgCtr := 0 }

def c3_store : Store :=
  { users := [sampleUser 1 0 true 0 true], channels := [], grants := [] }

def c3_catalog : List ChannelCfg := [{ id := 100, name := "A", daysRequired := 1 }]

def c3_world : World := { store := c3_store, calls := [], msgCtr := 0 }

def c3m_store : Store :=
  { users := [sampleUser 1 0 true 0 true],
    channels := [{ channelId := 100, name := "A", daysRequired := 1, isMain := false }],
    grants := [] }

def c3m_world : World := { store := c3m_store, calls := [], msgCtr := 0 }

def c4_store : Store :=
  { users := [sampleUser 1 0 true 0 false], channels := [], grants := [] }

def c4_world : World := { store := c4_store, calls := [], msgCtr := 0 }

def c4_catalog : List ChannelCfg := [{ id := 100, name := "A", daysRequired := 1 }]

def c5_store : Store :=
  { users := [sampleUser 1 0 true 0 false],
    channels := [{ channelId := 100, name := "A", daysRequired := 1, isMain := false }],
    grants := [{ userId := 1, channelId := 100, grantedAt := 0, messageId := none }] }

def c5_catalog : List ChannelCfg := [{ id := 100, name := "A", daysRequired := 1 }]

def c5_world : World := { store := c5_store, calls := [], msgCtr := 0 }

def c6_store : Store :=
  { users := [sampleUser 1 1000 true (-5) false], channels := [], grants := [] }

def c6b_store : Store :=
  { users := [sampleUser 1 0 true 3 false], channels := [], grants := [] }

def c7_store : Store :=
  { users := [sampleUser 1 0 true 0 false], channels := [], grants := [] }

def c7_catalog : List ChannelCfg := [{ id := 100, name := "A", daysRequired := 1 }]

def c7_world : World := { store := c7_store, calls := [], msgCtr := 0 }

def c8_store : Store :=
  { users := [sampleUser 1 0 true 0 false], channels := [], grants := [] }

def c8_world : World := { store := c8_store, calls := [], msgCtr := 0 }

def c10_store : Store :=
  { users := [sampleUser 1 0 true 5 false],
    channels := [{ channelId := 100, name := "A", daysRequired := 32, isMain := false }],
    grants := [] }

end ClaimFixtures

section Claims

open UserModel UserChannelModel UserModelExtended SubscriptionService AdminHandlers

/-- C1: the claim says register_user on an existing inactive user resets
join_date to now, sets is_active true, and resets bonus_days to 0, so that
effectiveDays right after reactivation equals bonus_days.  The code's
register_user only calls UserModel.update_active: at the failing input (an
inactive user who joined at time 0 with 7 bonus days, re-registering 100
days later) the status is "reactivated" and is_active becomes true, but
join_date stays 0 and bonus_days stays 7, so effectiveDays is 107, not 7.
The never-called UserModelExtended.reactivate would give exactly the claimed
behaviour (effectiveDays 0 = the reset bonus_days). -/
theorem claim_C1_register_user_keeps_old_clock :
    (register_user c1_store 8640000 1 none none).1 = RegStatus.reactivated ∧
    (UserModel.get (register_user c1_store 8640000 1 none none).2 1).map
      (fun u => (u.joinDate, u.isActive, u.bonusDays)) = some (0, true, 7) ∧
    get_effective_days (register_user c1_store 8640000 1 none none).2 1 8640000 = 107 ∧
    ¬(get_effective_days (register_user c1_store 8640000 1 none none).2 1 8640000 =
      (sampleUser 1 0 false 7 false).bonusDays) ∧
    get_effective_days (UserModelExtended.reactivate c1_store 1 8640000) 1 8640000 = 0 := by
  refine ⟨rfl, by decide, by decide, by decide, by decide⟩

/-- C2: grant completeness.  After one process_daily_check in which the
platform calls for this user succeed, every active, not-banned,
primary-member user holds a grant for every configured catalog channel whose
days_required is within the user's effective days. -/
theorem claim_C2_grant_completeness (env : Platform) (now mainId : Int)
    (catalog : List ChannelCfg) (w : World) (uid : Int) (ur : User)
    (c : ChannelCfg)
    (hu : UsersUnique w.store)
    (hget : UserModel.get w.store uid = some ur)
    (hactive : ur.isActive = true)
    (_hban : ur.isBanned = false)
    (hfault : env.memberFault uid = false)
    (hmem : env.mainMember uid = true)
    (hc : c ∈ catalog) (h0 : c.id ≠ 0)
    (hi : env.inviteOk c.id uid = true)
    (hdays : c.daysRequired ≤ get_effective_days w.store uid now) :
    has_access (process_daily_check env now mainId catalog w).2.store uid c.id = true :=
  sweep_grants env now mainId catalog w uid ur c hu hget hactive hfault hmem hc h0 hi hdays

/-- C2 witness: a concrete 10-day subscriber obtains the 1-day channel after
one sweep. -/
theorem claim_C2_witness :
    has_access (process_daily_check okPlatform 864000 50 c2_catalog c2_world).2.store
      1 100 = true :=
  claim_C2_grant_completeness okPlatform 864000 50 c2_catalog c2_world 1
    (sampleUser 1 0 true 0 false) { id := 100, name := "A", daysRequired := 1 }
    (by unfold UsersUnique; decide) (by decide) rfl rfl rfl rfl (by decide)
    (by decide) rfl (by decide)

/-- C3 counterexample: the claim says a banned user on any grant path is
rejected before any platform call.  On a concrete store whose only user is
banned, active and qualifying, one sweep creates the grant and the
invite-creation platform call for that user is made: the claim is false. -/
theorem claim_C3_counterexample :
    (UserModel.get c3_store 1).map (fun u => u.isBanned) = some true ∧
    has_access (process_daily_check okPlatform 864000 50 c3_catalog c3_world).2.store
      1 100 = true ∧
    PCall.createInvite 100 1 ∈
      (process_daily_check okPlatform 864000 50 c3_catalog c3_world).2.calls := by
  refine ⟨by decide, by decide, by decide⟩

/-- C3 amended: only the /start registration path rejects banned users; no
grant path checks is_banned.  (a) In general, a banned user that is active,
a primary member and qualifying is granted by the sweep and the invite
platform call is made for them; (b) the manual admin grant path on a banned
user proceeds, makes the invite call, and records the grant; (c) the mass
grant path likewise makes the invite call and records the grant for a banned
user in the selected day range. -/
theorem claim_C3_amended :
    (∀ (env : Platform) (now mainId : Int) (catalog : List ChannelCfg)
      (w : World) (uid : Int) (ur : User) (c : ChannelCfg),
      UsersUnique w.store → UserModel.get w.store uid = some ur →
      ur.isActive = true → ur.isBanned = true →
      env.memberFault uid = false → env.mainMember uid = true →
      c ∈ catalog → c.id ≠ 0 → env.inviteOk c.id uid = true →
      has_access w.store uid c.id = false →
      c.daysRequired ≤ get_effective_days w.store uid now →
      has_access (process_daily_check env now mainId catalog w).2.store uid c.id = true ∧
      PCall.createInvite c.id uid ∈
        (process_daily_check env now mainId catalog w).2.calls) ∧
    ((process_manual_grant okPlatform 864000 1 100 c3m_world).1.isSome = true ∧
      PCall.createInvite 100 1 ∈ (process_manual_grant okPlatform 864000 1 100 c3m_world).2.calls ∧
      has_access (process_manual_grant okPlatform 864000 1 100 c3m_world).2.store 1 100 = true) ∧
    (PCall.createInvite 100 1 ∈
        (process_mass_grant okPlatform 864000 c3_catalog 0 1000 c3_world).2.calls ∧
      has_access (process_mass_grant okPlatform 864000 c3_catalog 0 1000 c3_world).2.store
        1 100 = true) := by
  refine ⟨?ha, ?hb, ?hc⟩
  case ha =>
    intro env now mainId catalog w uid ur c hu hget hactive _hban hfault hmem hc h0 hi hacc hdays
    exact ⟨sweep_grants env now mainId catalog w uid ur c hu hget hactive hfault hmem hc h0 hi hdays,
      sweep_invite_call env now mainId catalog w uid ur c hu hget hactive hfault hmem hc h0 hacc hdays⟩
  case hb => exact ⟨by decide, by decide, by decide⟩
  case hc => exact ⟨by decide, by decide⟩

/-- C4: grant idempotence and uniqueness.  Calling grant_channel_access
twice in succession yields one grant row and one invite call, the second
call returning Declined (None) and leaving the world unchanged; and the
at-most-one-grant-per-(user, channel) invariant (the UNIQUE constraint) is
preserved by every sequence of system operations. -/
theorem claim_C4_grant_idempotent_unique (env env2 : Platform)
    (now now2 mainId : Int) (catalog : List ChannelCfg) (u c : Int) (w : World)
    (hacc : has_access w.store u c = false)
    (hi : env.inviteOk c u = true) :
    (grant_channel_access env now u c w).1.isSome = true ∧
    grant_channel_access env2 now2 u c (grant_channel_access env now u c w).2 =
      (none, (grant_channel_access env now u c w).2) ∧
    grantCount (grant_channel_access env now u c w).2.store u c = 1 ∧
    inviteCallCount (grant_channel_access env now u c w).2 u c =
      inviteCallCount w u c + 1 ∧
    (GrantsUnique w.store → ∀ ops : List Op,
      GrantsUnique (applyOps env now mainId catalog ops w).store) := by
  obtain ⟨h1, h2, h3, h4⟩ := grant_twice env env2 now now2 u c w hacc hi
  refine ⟨h1, h2, h3, h4, ?hops⟩
  intro hgu ops
  unfold applyOps
  exact foldl_preserve (fun w' : World => GrantsUnique w'.store)
    (applyOp env now mainId catalog) ops
    (fun b a hb => gu_applyOp env now mainId catalog b a hb) w hgu

/-- C4 witness: the double-grant properties and invariant preservation at a
concrete store and channel. -/
theorem claim_C4_witness :
    (grant_channel_access okPlatform 864000 1 100 c4_world).1.isSome = true ∧
    grant_channel_access okPlatform 864000 1 100
        (grant_channel_access okPlatform 864000 1 100 c4_world).2 =
      (none, (grant_channel_access okPlatform 864000 1 100 c4_world).2) ∧
    grantCount (grant_channel_access okPlatform 864000 1 100 c4_world).2.store 1 100 = 1 ∧
    inviteCallCount (grant_channel_access okPlatform 864000 1 100 c4_world).2 1 100 =
      inviteCallCount c4_world 1 100 + 1 ∧
    (GrantsUnique c4_world.store → ∀ ops : List Op,
      GrantsUnique (applyOps okPlatform 864000 50 c4_catalog ops c4_world).store) :=
  claim_C4_grant_idempotent_unique okPlatform okPlatform 864000 864000 50
    c4_catalog 1 100 c4_world (by decide) rfl

/-- C5: downgrade correctness with frame condition.  If a grant exists but
the holder's effective days are below the configured channel's requirement
at sweep time, after one sweep the grant is gone; and the downgrade pass
leaves the users table (in particular every is_active flag) untouched. -/
theorem claim_C5_downgrade_correctness (env : Platform) (now mainId : Int)
    (catalog : List ChannelCfg) (w : World) (uid : Int) (ur : User)
    (c : ChannelCfg)
    (hu : UsersUnique w.store)
    (hcat : (catalog.map (fun x => x.id)).Nodup)
    (hget : UserModel.get w.store uid = some ur)
    (_hacc : has_access w.store uid c.id = true)
    (hc : c ∈ catalog) (h0 : c.id ≠ 0)
    (hf : env.effFault c.id uid = false)
    (he : get_effective_days w.store uid now < c.daysRequired) :
    has_access (process_daily_check env now mainId catalog w).2.store uid c.id = false ∧
    (check_and_revoke_unqualified_access env now catalog w).2.store.users =
      w.store.users :=
  ⟨sweep_removes env now mainId catalog w uid ur c hu hcat hget hc h0 hf he,
   downgrade_users env now catalog w⟩

/-- C5 witness: a holder with 0 effective days loses the 1-day channel after
one sweep, with the users table unchanged by the downgrade pass. -/
theorem claim_C5_witness :
    has_access (process_daily_check okPlatform 0 50 c5_catalog c5_world).2.store
      1 100 = false ∧
    (check_and_revoke_unqualified_access okPlatform 0 c5_catalog c5_world).2.store.users =
      c5_world.store.users :=
  claim_C5_downgrade_correctness okPlatform 0 50 c5_catalog c5_world 1
    (sampleUser 1 0 true 0 false) { id := 100, name := "A", daysRequired := 1 }
    (by unfold UsersUnique; decide) (by decide) (by decide) (by decide)
    (by decide) (by decide) rfl (by decide)

/-- C6 counterexample: the claim says effectiveDays is always ≥ 0.  The code
applies no floor: for a user whose join_date equals now and whose bonus_days
is -5, get_effective_days returns -5 < 0, so the claim is false. -/
theorem claim_C6_counterexample :
    get_effective_days c6_store 1 1000 = -5 ∧
    ¬(0 ≤ get_effective_days c6_store 1 1000) := by
  refine ⟨by decide, by decide⟩

/-- C6 amended: get_effective_days applies no floor at 0, but it is
non-negative whenever bonus_days is non-negative and join_date is not in the
future. -/
theorem claim_C6_effective_days_nonneg (s : Store) (uid now : Int) (u : User)
    (hget : UserModel.get s uid = some u)
    (hb : 0 ≤ u.bonusDays)
    (hj : u.joinDate ≤ now) :
    0 ≤ get_effective_days s uid now := by
  unfold get_effective_days
  rw [hget]
  have hd : (0 : Int) ≤ wholeDaysBetween u.joinDate now := by
    unfold wholeDaysBetween
    exact Int.tdiv_nonneg (sub_nonneg.mpr hj) (by norm_num)
  exact add_nonneg hd hb

/-- C6 witness: a concrete user with non-negative bonus days and a past
join date has non-negative effective days. -/
theorem claim_C6_witness : 0 ≤ get_effective_days c6b_store 1 8640 :=
  claim_C6_effective_days_nonneg c6b_store 1 8640 (sampleUser 1 0 true 3 false)
    (by decide) (by decide) (by decide)

/-- C7: within one sweep the downgrade pass over the whole catalog runs
before the grant pass; consequently, for a member user whose platform calls
succeed, one sweep converges: after it the user holds a configured channel's
grant exactly when their effective days reach its (possibly just-edited)
requirement, regardless of the previous grant set. -/
theorem claim_C7_downgrade_before_grant (env : Platform) (now mainId : Int)
    (catalog : List ChannelCfg) (w : World) (uid : Int) (ur : User)
    (c : ChannelCfg)
    (hu : UsersUnique w.store)
    (hcat : (catalog.map (fun x => x.id)).Nodup)
    (hget : UserModel.get w.store uid = some ur)
    (hactive : ur.isActive = true)
    (hfault : env.memberFault uid = false)
    (hmem : env.mainMember uid = true)
    (hc : c ∈ catalog) (h0 : c.id ≠ 0)
    (hi : env.inviteOk c.id uid = true)
    (hf : env.effFault c.id uid = false) :
    (has_access (process_daily_check env now mainId catalog w).2.store uid c.id = true ↔
      c.daysRequired ≤ get_effective_days w.store uid now) := by
  constructor
  · intro h
    by_contra hlt
    rw [sweep_removes env now mainId catalog w uid ur c hu hcat hget hc h0 hf
      (not_le.mp hlt)] at h
    exact Bool.false_ne_true h
  · intro hle
    exact sweep_grants env now mainId catalog w uid ur c hu hget hactive hfault
      hmem hc h0 hi hle

/-- C7 witness: the convergence equivalence at a concrete 10-day subscriber
and a 1-day channel. -/
theorem claim_C7_witness :
    (has_access (process_daily_check okPlatform 864000 50 c7_catalog c7_world).2.store
      1 100 = true ↔
      (1 : Int) ≤ get_effective_days c7_world.store 1 864000) :=
  claim_C7_downgrade_before_grant okPlatform 864000 50 c7_catalog c7_world 1
    (sampleUser 1 0 true 0 false) { id := 100, name := "A", daysRequired := 1 }
    (by unfold UsersUnique; decide) (by decide) (by decide) rfl rfl rfl
    (by decide) (by decide) rfl rfl

/-- C8: grant atomicity on platform failure.  If the invite-creation
platform call fails while no grant exists yet, grant_channel_access returns
Declined (None) and the store is unchanged — nothing is persisted. -/
theorem claim_C8_grant_atomic_on_failure (env : Platform) (now u c : Int)
    (w : World)
    (hacc : has_access w.store u c = false)
    (hfail : env.inviteOk c u = false) :
    (grant_channel_access env now u c w).1 = none ∧
    (grant_channel_access env now u c w).2.store = w.store :=
  grant_channel_access_fail env now u c w hacc hfail

/-- C8 witness: a failing platform leaves the concrete store untouched and
returns Declined. -/
theorem claim_C8_witness :
    (grant_channel_access failPlatform 864000 1 100 c8_world).1 = none ∧
    (grant_channel_access failPlatform 864000 1 100 c8_world).2.store = c8_world.store :=
  claim_C8_grant_atomic_on_failure failPlatform 864000 1 100 c8_world
    (by decide) rfl

/-- C9: per-user failure isolation.  For every platform oracle (hence every
pattern of raised exceptions), one sweep still counts every active user as
checked, its error tally is the downgrade pass's errors plus the number of
users whose processing raised, and the downgrade pass visits every
configured catalog channel. -/
theorem claim_C9_failure_isolation (env : Platform) (now mainId : Int)
    (catalog : List ChannelCfg) (w : World) :
    (process_daily_check env now mainId catalog w).1.checked =
      (UserModel.get_active_users
        (check_and_revoke_unqualified_access env now catalog w).2.store).length ∧
    (process_daily_check env now mainId catalog w).1.errors =
      (check_and_revoke_unqualified_access env now catalog w).1.errors +
        ((UserModel.get_active_users
          (check_and_revoke_unqualified_access env now catalog w).2.store).filter
            (fun x => env.memberFault x.userId)).length ∧
    (check_and_revoke_unqualified_access env now catalog w).1.checked_channels =
      (catalog.filter (fun cfg => !(cfg.id == 0))).length := by
  obtain ⟨h1, h2⟩ := sweep_counting env now mainId catalog w
  refine ⟨h1, h2, ?h3⟩
  exact (downgrade_channels_count env now catalog (⟨0, 0, 0⟩, w)).trans
    (Nat.zero_add _)

/-- C10: the milestone-notification query computes days_subscribed as whole
days since join_date WITHOUT bonus_days: for every returned row,
days_subscribed + bonus_days equals get_effective_days, so whenever
bonus_days is nonzero the notification selection and the entitlement
computation disagree about the user's days. -/
theorem claim_C10_milestone_ignores_bonus (s : Store) (now dB : Int)
    (row : MilestoneRow)
    (hu : UsersUnique s)
    (hrow : row ∈ get_users_approaching_milestone s now dB) :
    ∃ u : User, UserModel.get s row.userId = some u ∧
      row.daysSubscribed + u.bonusDays = get_effective_days s row.userId now ∧
      (u.bonusDays ≠ 0 →
        row.daysSubscribed ≠ get_effective_days s row.userId now) := by
  unfold get_users_approaching_milestone at hrow
  rw [List.mem_flatten] at hrow
  obtain ⟨L, hL, hrowL⟩ := hrow
  rw [List.mem_map] at hL
  obtain ⟨u0, hu0, hLdef⟩ := hL
  subst hLdef
  rw [List.mem_map] at hrowL
  obtain ⟨ch, _hch, hrowdef⟩ := hrowL
  have hds : row.daysSubscribed = wholeDaysBetween u0.joinDate now := by
    rw [← hrowdef]
  have hid : row.userId = u0.userId := by
    rw [← hrowdef]
  have hg : UserModel.get s u0.userId = some u0 :=
    find_of_mem_nodup s.users u0 hu0 hu
  have heff : get_effective_days s u0.userId now =
      wholeDaysBetween u0.joinDate now + u0.bonusDays := by
    unfold get_effective_days
    rw [hg]
  refine ⟨u0, ?hget, ?heq, ?hneq⟩
  case hget =>
    rw [hid]
    exact hg
  case heq =>
    rw [hid, hds, heff]
  case hneq =>
    intro hb hEq
    rw [hid, hds, heff] at hEq
    omega

/-- C10 witness: a 30-day subscriber with 5 bonus days approaching a 32-day
channel is selected by the notification query with days_subscribed 30 while
effective days are 35. -/
theorem claim_C10_witness :
    ∃ u : User, UserModel.get c10_store
        (({ userId := 1, daysSubscribed := 30, channelId := 100,
            channelName := "A", daysRequired := 32 } : MilestoneRow)).userId = some u ∧
      (({ userId := 1, daysSubscribed := 30, channelId := 100,
          channelName := "A", daysRequired := 32 } : MilestoneRow)).daysSubscribed +
        u.bonusDays = get_effective_days c10_store 1 2592000 ∧
      (u.bonusDays ≠ 0 →
        (({ userId := 1, daysSubscribed := 30, channelId := 100,
            channelName := "A", daysRequired := 32 } : MilestoneRow)).daysSubscribed ≠
          get_effective_days c10_store 1 2592000) :=
  claim_C10_milestone_ignores_bonus c10_store 2592000 3
    { userId := 1, daysSubscribed := 30, channelId := 100,
      channelName := "A", daysRequired := 32 }
    (by unfold UsersUnique; decide) (by decide)

end Claims

end SubBot
